import Mathlib

/-!
Verification development for the WhatsApp chat-archive ingestion core:
the transcript parser, timestamp normalizer, media reference classifier,
media correlator (`src/server/whatsapp-parser.ts`) and the streaming
archive ingestion pipeline (`streaming-zip-processor`).

Strings are modelled as `List Char`; JavaScript `Date` values are modelled
by the `JsDate` structure below.  JavaScript regular expressions are
modelled by hand-written matchers that reproduce the backtracking
behaviour of the concrete patterns appearing in the source; comments at
each matcher explain the correspondence.
-/

set_option maxHeartbeats 4000000

namespace WhatsApp

/-- Characters matched by the JavaScript regex class `\d` (exactly 0-9). -/
def isDigitCh (c : Char) : Bool := '0' ≤ c && c ≤ '9'

/-- Whitespace code points: the JavaScript regex class `\s` (which is also
the set removed by `String.prototype.trim`). -/
def isSpaceCh (c : Char) : Bool :=
  c = ' ' || c = '\t' || c = '\n' || c = '\r' || c = '\x0b' || c = '\x0c' ||
  c = ' ' || c = ' ' || c = ' ' || c = ' ' ||
  c = ' ' || c = ' ' || c = ' ' || c = ' ' ||
  c = ' ' || c = ' ' || c = ' ' || c = ' ' ||
  c = ' ' || c = ' ' || c = ' ' || c = ' ' ||
  c = ' ' || c = '　' || c = '﻿'

/-- Characters matched by the JavaScript regex class `\w` (A-Z, a-z, 0-9, _). -/
def isWordCh (c : Char) : Bool :=
  ('A' ≤ c && c ≤ 'Z') || ('a' ≤ c && c ≤ 'z') || isDigitCh c || c = '_'

/-- `String.prototype.toLowerCase` restricted to the code points this
code base compares (ASCII, and the Latin-1 letters appearing in the
multilingual self-identifier list). -/
def toLowerCh (c : Char) : Char :=
  if 'A' ≤ c && c ≤ 'Z' then Char.ofNat (c.toNat + 32)
  else if 'À' ≤ c && c ≤ 'Þ' && c ≠ '×' then Char.ofNat (c.toNat + 32)
  else c

def lowerStr (s : List Char) : List Char := s.map toLowerCh

/-- Numeric value of an ASCII digit character. -/
def digitVal (c : Char) : Nat := c.toNat - '0'.toNat

/-- `parseInt` on a list of ASCII digits. -/
def digitsToNat (l : List Char) : Nat :=
  l.foldl (fun acc c => acc * 10 + digitVal c) 0

/-- Does `s` start with `pat` (pattern given first)? -/
def startsWithCh : List Char → List Char → Bool
  | [], _ => true
  | _ :: _, [] => false
  | p :: ps, c :: cs => p = c && startsWithCh ps cs

/-- Does `s` contain `pat` as a contiguous substring
(`String.prototype.includes`)? -/
def containsCh (pat : List Char) : List Char → Bool
  | [] => startsWithCh pat []
  | c :: rest => startsWithCh pat (c :: rest) || containsCh pat rest

/-- Length of the maximal leading run of characters satisfying `p`. -/
def countLeading (p : Char → Bool) : List Char → Nat
  | [] => 0
  | c :: rest => if p c then countLeading p rest + 1 else 0

/-- Length of the maximal run of characters satisfying `p` starting at
position `i` of `l`. -/
def runFrom (p : Char → Bool) (l : List Char) (i : Nat) : Nat :=
  countLeading p (l.drop i)

/-- The character at position `i`, if any. -/
def charAt (l : List Char) (i : Nat) : Option Char := l.get? i

/-- The substring `[p, q)` of `l`. -/
def slice (l : List Char) (p q : Nat) : List Char := (l.take q).drop p

/-- Helper for `findChFrom`: scans `rest`, reporting positions offset by `i`. -/
def findChAux (c : Char) : List Char → Nat → Option Nat
  | [], _ => none
  | d :: rest, i => if d = c then some i else findChAux c rest (i + 1)

/-- Position of the first occurrence of `c` at or after position `i`, if any. -/
def findChFrom (l : List Char) (c : Char) (i : Nat) : Option Nat :=
  findChAux c (l.drop i) i

/-- `String.prototype.trim`. -/
def trimStr (s : List Char) : List Char :=
  ((s.dropWhile isSpaceCh).reverse.dropWhile isSpaceCh).reverse

/-- JavaScript `string.split(sep)` for a one-character separator
(empty pieces are kept, as in JavaScript). -/
def splitCh (sep : Char) : List Char → List (List Char)
  | [] => [[]]
  | c :: rest =>
    let r := splitCh sep rest
    if c = sep then [] :: r
    else
      match r with
      | [] => [[c]]
      | piece :: more => (c :: piece) :: more

/-! ## JavaScript `Date`

`new Date(year, month0, day, hour, minute, second)` normalizes arbitrary
integer arguments into a calendar instant (months carry into years, days
into months, seconds/minutes/hours into days), exactly as the linear
epoch-millisecond arithmetic of the ECMAScript `MakeDay`/`MakeTime`
operations.  `JsDate` stores the already-normalized civil components
(`month` is 1-based here; JavaScript `getMonth()` is `month - 1`,
`getFullYear()` is `year`, `getDate()` is `day`).  The host timezone is
taken to be UTC, which is sound because the program only ever compares
its `Date` values with each other. -/

/-- Proleptic Gregorian leap year. -/
def isLeapYear (y : Int) : Bool := (y % 4 = 0 && y % 100 ≠ 0) || y % 400 = 0

/-- Days in month `m` (1-12) of year `y`. -/
def daysInMonth (y m : Int) : Int :=
  if m = 2 then (if isLeapYear y then 29 else 28)
  else if m = 4 || m = 6 || m = 9 || m = 11 then 30
  else 31

/-- Normalized instant (month 1-12, day 1-`daysInMonth`, hour 0-23,
minute/second 0-59 once produced by `mkJsDate`). -/
structure JsDate where
  year : Int
  month : Int
  day : Int
  hour : Int
  minute : Int
  second : Int
  deriving Repr, DecidableEq

/-- Day-of-month carry loop: moves an out-of-range day count into adjacent
months.  Fuel-bounded; the fuel is ample for every value the program can
construct (date fields are at most two- to four-digit numbers). -/
def normDay : Nat → Int × Int × Int → Int × Int × Int
  | 0, ymd => ymd
  | fuel + 1, (y, m, d) =>
    if d < 1 then
      let py := if m = 1 then y - 1 else y
      let pm := if m = 1 then 12 else m - 1
      normDay fuel (py, pm, d + daysInMonth py pm)
    else if d > daysInMonth y m then
      let ny := if m = 12 then y + 1 else y
      let nm := if m = 12 then 1 else m + 1
      normDay fuel (ny, nm, d - daysInMonth y m)
    else (y, m, d)

/-- `new Date(y, m0, d, h, mi, s)` (local time = UTC).  `m0` is the
0-based month argument, as in JavaScript. -/
def mkJsDate (y m0 d h mi s : Int) : JsDate :=
  let s' := s.emod 60
  let totMin := mi + s.ediv 60
  let mi' := totMin.emod 60
  let totH := h + totMin.ediv 60
  let h' := totH.emod 24
  let dTot := d + totH.ediv 24
  let ny := y + m0.ediv 12
  let nm := m0.emod 12 + 1
  let (fy, fm, fd) := normDay 4000 (ny, nm, dTot)
  ⟨fy, fm, fd, h', mi', s'⟩

/-- Days since the Unix epoch of the civil date `y-m-d` (valid `m`, `d`);
Howard Hinnant's `days_from_civil` algorithm, which is what
`Date.prototype.getTime` computes up to the time-of-day part. -/
def daysFromCivil (y m d : Int) : Int :=
  let yShift := if m ≤ 2 then y - 1 else y
  let era := yShift.ediv 400
  let yoe := yShift - era * 400
  let mp := if m > 2 then m - 3 else m + 9
  let doy := (153 * mp + 2).ediv 5 + d - 1
  let doe := yoe * 365 + yoe.ediv 4 - yoe.ediv 100 + doy
  era * 146097 + doe - 719468

/-- `Date.prototype.getTime` (milliseconds since the Unix epoch). -/
def getTime (t : JsDate) : Int :=
  daysFromCivil t.year t.month t.day * 86400000 +
    t.hour * 3600000 + t.minute * 60000 + t.second * 1000

/-- The calendar-day key used by `WhatsAppParser.getDateKey`.  The source
builds the string `` `${getFullYear()}-${MM}-${DD}` ``; since that string
determines and is determined by the `(year, month, day)` triple, the
triple itself is used as the key here. -/
def dateKeyOf (t : JsDate) : Int × Int × Int := (t.year, t.month, t.day)

/-! ## Timestamp normalizer: `WhatsAppParser.parseTimestamp`

The two candidate patterns of the source are

  format 1: `(\d{1,2})[\/،,](\d{1,2})[\/،,](\d{2,4})[،,]?\s+(\d{1,2}):(\d{2})(?::(\d{2}))?\s*(AM|PM|ص|م)?` with the `i` flag,
  format 2: the same without the optional comma after the year and
            without the meridiem group,

searched unanchored (leftmost match).  Inside the pattern every choice is
deterministic: each bounded digit group `\d{a,b}` is followed by a
non-digit requirement, so giving back digits always puts a digit in front
of that requirement and fails; hence a maximal-munch scan with exact
run-length checks reproduces the backtracking engine. -/

/-- The separator class `[\/،,]` of the date patterns. -/
def isDateSep (c : Char) : Bool := c = '/' || c = ',' || c = '،'

/-- The comma class `[،,]`. -/
def isCommaCh (c : Char) : Bool := c = ',' || c = '،'

inductive Meridiem | am | pm | sad | meem
  deriving Repr, DecidableEq

/-- The meridiem alternation `(AM|PM|ص|م)`, tried in source order; `ci`
selects case-insensitive matching (the `i` flag). -/
def meridiemAt (ci : Bool) (l : List Char) (i : Nat) : Option (Meridiem × Nat) :=
  let eqc : Char → Char → Bool := fun a b => if ci then toLowerCh a = toLowerCh b else a = b
  match charAt l i, charAt l (i + 1) with
  | some c0, some c1 =>
    if eqc c0 'A' && eqc c1 'M' then some (.am, i + 2)
    else if eqc c0 'P' && eqc c1 'M' then some (.pm, i + 2)
    else if c0 = 'ص' then some (.sad, i + 1)
    else if c0 = 'م' then some (.meem, i + 1)
    else none
  | some c0, none =>
    if c0 = 'ص' then some (.sad, i + 1)
    else if c0 = 'م' then some (.meem, i + 1)
    else none
  | none, _ => none

/-- Captured fields of a date/time pattern match.  The source destructures
them as `[, month, day, year, hour, minute, second, meridiem]`: the first
captured number is `month`, the second is `day`. -/
structure TsFields where
  month : Nat
  day : Nat
  year : Nat
  hour : Nat
  minute : Nat
  second : Option Nat
  meridiem : Option Meridiem
  deriving Repr, DecidableEq

/-- Try the date/time pattern at position `p`.  `allowComma` enables the
`[،,]?` after the year (format 1 only); `allowMer` enables the meridiem
group (format 1 only, case-insensitive per the `i` flag). -/
def tsFormatAt (allowComma allowMer : Bool) (l : List Char) (p : Nat) :
    Option TsFields := do
  let r1 := runFrom isDigitCh l p
  guard (1 ≤ r1 ∧ r1 ≤ 2)
  let p1 := p + r1
  let c1 ← charAt l p1
  guard (isDateSep c1 = true)
  let p2 := p1 + 1
  let r2 := runFrom isDigitCh l p2
  guard (1 ≤ r2 ∧ r2 ≤ 2)
  let p3 := p2 + r2
  let c2 ← charAt l p3
  guard (isDateSep c2 = true)
  let p4 := p3 + 1
  let r3 := runFrom isDigitCh l p4
  guard (2 ≤ r3 ∧ r3 ≤ 4)
  let p5 := p4 + r3
  let p6 :=
    if allowComma then
      match charAt l p5 with
      | some c => if isCommaCh c then p5 + 1 else p5
      | none => p5
    else p5
  let ws := runFrom isSpaceCh l p6
  guard (1 ≤ ws)
  let p7 := p6 + ws
  let r4 := runFrom isDigitCh l p7
  guard (1 ≤ r4 ∧ r4 ≤ 2)
  let p8 := p7 + r4
  guard (charAt l p8 = some ':')
  let p9 := p8 + 1
  let r5 := runFrom isDigitCh l p9
  guard (2 ≤ r5)
  let p10 := p9 + 2
  let secTaken := charAt l p10 = some ':' ∧ 2 ≤ runFrom isDigitCh l (p10 + 1)
  let sec := if secTaken then some (digitsToNat (slice l (p10 + 1) (p10 + 3))) else none
  let p11 := if secTaken then p10 + 3 else p10
  let p12 := p11 + runFrom isSpaceCh l p11
  let mer := if allowMer then (meridiemAt true l p12).map Prod.fst else none
  pure { month := digitsToNat (slice l p p1), day := digitsToNat (slice l p2 p3),
         year := digitsToNat (slice l p4 p5), hour := digitsToNat (slice l p7 p8),
         minute := digitsToNat (slice l p9 p10), second := sec, meridiem := mer }

/-- Unanchored leftmost search of a date/time pattern (`String.match`). -/
def tsSearchAux (ac am : Bool) (l : List Char) : Nat → Nat → Option TsFields
  | _, 0 => none
  | p, fuel + 1 =>
    match tsFormatAt ac am l p with
    | some f => some f
    | none => if p ≥ l.length then none else tsSearchAux ac am l (p + 1) fuel

def tsSearch (ac am : Bool) (l : List Char) : Option TsFields :=
  tsSearchAux ac am l 0 (l.length + 1)

/-- Two-digit year widening: `< 50 → +2000`, else `+1900` (line 181-184). -/
def adjustYear (y : Nat) : Int :=
  if y < 100 then (if y < 50 then (y : Int) + 2000 else (y : Int) + 1900) else y

/-- The 12-hour to 24-hour conversion of lines 186-194: `PM`/`م` with hour
below 12 adds 12, `AM`/`ص` with hour 12 yields 0, otherwise the parsed
hour passes through. -/
def convertHour (h : Nat) (mer : Option Meridiem) : Int :=
  match mer with
  | some m =>
    if (m = .pm ∨ m = .meem) ∧ h < 12 then (h : Int) + 12
    else if (m = .am ∨ m = .sad) ∧ h = 12 then 0
    else h
  | none => h

/-- `new Date(yearNum, month - 1, day, hourNum, minute, second || 0)`.
The `isNaN` guard of line 205 cannot fire for the bounded numbers a
pattern match produces, so the constructed date is always returned. -/
def buildDate (f : TsFields) : JsDate :=
  mkJsDate (adjustYear f.year) ((f.month : Int) - 1) f.day
    (convertHour f.hour f.meridiem) f.minute
    (match f.second with | some s => (s : Int) | none => 0)

/-- The preprocessing of line 169: strip square brackets, replace the
Arabic comma `U+060C` (both class members denote that code point) with
`,`, and trim. -/
def prepTs (dateStr : List Char) : List Char :=
  trimStr (((dateStr.filter (fun c => c ≠ '[' && c ≠ ']')).map
    (fun c => if c = '،' then ',' else c)))

/-- `WhatsAppParser.parseTimestamp`.  `now` stands for the wall clock read
by the `new Date()` fallback of line 211. -/
def parseTimestampWith (now : JsDate) (dateStr : List Char) : JsDate :=
  let s := prepTs dateStr
  match tsSearch true true s with
  | some f => buildDate f
  | none =>
    match tsSearch false false s with
    | some f => buildDate f
    | none => now

/-! ## Line grammars: `messageRegex` and `systemMessageRegex`

`messageRegex` is
`^\[?(TS)\]?\s*-?\s*([^:]+?):\s*(.+)$` and `systemMessageRegex` is
`^\[?(TS)\]?\s*-?\s*(.+)$`, where `TS` is
`\d{1,2}\/\d{1,2}\/\d{2,4}[،,]?\s+\d{1,2}:\d{2}(?::\d{2})?\s*(?:AM|PM|ص|م)?`
(no `i` flag on either).  Up to the minute digits and the optional
seconds group, `TS` is deterministic for the same reason as the
`parseTimestamp` patterns.  The trailing `\s*(?:…)?` of `TS` and the
`\]?\s*-?\s*` glue backtrack; the matchers below reproduce the engine's
preference order (each earlier greedy/optional element keeps its longest
alternative that still lets the rest of the pattern succeed, later choice
points are given back first).  Since `[^:]+?` accepts every character the
glue accepts, `messageRegex` succeeds exactly when the deterministic part
of `TS` matches at the (bracket-adjusted) start, some colon follows with
at least one character between, and at least one character follows that
first colon. -/

/-- Position after the deterministic part of `TS` (through the minute
digits and the optional `:ss`), or `none` if `TS` cannot match at `p`. -/
def lineTsCore (l : List Char) (p : Nat) : Option Nat := do
  let r1 := runFrom isDigitCh l p
  guard (1 ≤ r1 ∧ r1 ≤ 2)
  guard (charAt l (p + r1) = some '/')
  let p2 := p + r1 + 1
  let r2 := runFrom isDigitCh l p2
  guard (1 ≤ r2 ∧ r2 ≤ 2)
  guard (charAt l (p2 + r2) = some '/')
  let p4 := p2 + r2 + 1
  let r3 := runFrom isDigitCh l p4
  guard (2 ≤ r3 ∧ r3 ≤ 4)
  let p5 := p4 + r3
  let p6 :=
    match charAt l p5 with
    | some c => if isCommaCh c then p5 + 1 else p5
    | none => p5
  let ws := runFrom isSpaceCh l p6
  guard (1 ≤ ws)
  let p7 := p6 + ws
  let r4 := runFrom isDigitCh l p7
  guard (1 ≤ r4 ∧ r4 ≤ 2)
  let p8 := p7 + r4
  guard (charAt l p8 = some ':')
  let r5 := runFrom isDigitCh l (p8 + 1)
  guard (2 ≤ r5)
  let p10 := p8 + 3
  let secTaken : Bool := charAt l p10 = some ':' && decide (2 ≤ runFrom isDigitCh l (p10 + 1))
  pure (if secTaken then p10 + 3 else p10)

/-- End position of the greedy glue `\]?\s*-?\s*` starting at `i`. -/
def tailPrefixEnd (l : List Char) (i : Nat) : Nat :=
  let i1 := if charAt l i = some ']' then i + 1 else i
  let i2 := i1 + runFrom isSpaceCh l i1
  let i3 := if charAt l i2 = some '-' then i2 + 1 else i2
  i3 + runFrom isSpaceCh l i3

structure MsgMatch where
  ts : List Char
  sender : List Char
  content : List Char
  deriving Repr, DecidableEq

structure SysMatch where
  ts : List Char
  content : List Char
  deriving Repr, DecidableEq

/-- `line.match(messageRegex)`: `ts`, `sender`, `content` are the three
captures. -/
def msgRegexMatch (l : List Char) : Option MsgMatch := do
  let pStart := if charAt l 0 = some '[' then 1 else 0
  let p0 ← lineTsCore l pStart
  let len := l.length
  let q ← findChFrom l ':' p0
  guard (p0 < q)
  guard (q + 2 ≤ len)
  let maxSp := runFrom isSpaceCh l p0
  let p1 := p0 + maxSp
  -- `TS`'s trailing `\s*` keeps as many spaces (and the meridiem, when it
  -- matches) as still leave one character for the lazy `[^:]+?` sender.
  let g1end :=
    match meridiemAt false l p1 with
    | some (_, p2) => if p2 < q then p2 else p0 + min maxSp (q - p0 - 1)
    | none => p0 + min maxSp (q - p0 - 1)
  let e := tailPrefixEnd l g1end
  let sender := if e < q then slice l e q else slice l (q - 1) q
  let w := runFrom isSpaceCh l (q + 1)
  let f := q + 1 + w
  let content := if f < len then slice l f len else slice l (len - 1) len
  pure ⟨slice l pStart g1end, sender, content⟩

/-- The part of `sysRegexMatch` with the meridiem left unconsumed. -/
def sysNoMer (l : List Char) (pStart p1 : Nat) : SysMatch :=
  let len := l.length
  let e1 := tailPrefixEnd l p1
  if e1 < len then ⟨slice l pStart p1, slice l e1 len⟩
  else if p1 < e1 then ⟨slice l pStart p1, slice l (len - 1) len⟩
  else ⟨slice l pStart (len - 1), slice l (len - 1) len⟩

/-- `line.match(systemMessageRegex)`: `ts` and `content` captures. -/
def sysRegexMatch (l : List Char) : Option SysMatch := do
  let pStart := if charAt l 0 = some '[' then 1 else 0
  let p0 ← lineTsCore l pStart
  let len := l.length
  guard (p0 < len)
  let p1 := p0 + runFrom isSpaceCh l p0
  match meridiemAt false l p1 with
  | some (_, p2) =>
    let e2 := tailPrefixEnd l p2
    if e2 < len then pure ⟨slice l pStart p2, slice l e2 len⟩
    else if p2 < e2 then pure ⟨slice l pStart p2, slice l (len - 1) len⟩
    else pure (sysNoMer l pStart p1)
  | none => pure (sysNoMer l pStart p1)

/-- `encryptionNoticeRegex.test(line)`: in the source alternation only the
English variant is anchored by `^`; the Arabic and French variants are
substring searches.  The `i` flag lowercases the comparison. -/
def encryptionNoticeTest (l : List Char) : Bool :=
  startsWithCh (lowerStr "Messages and calls are end-to-end encrypted".data) (lowerStr l) ||
  containsCh "الرسائل والمكالمات مشفرة".data l ||
  containsCh (lowerStr "Les messages et les appels sont chiffrés".data) (lowerStr l)

/-- The bidirectional control marks stripped by `normalizeText`. -/
def isDirectionMark (c : Char) : Bool :=
  c = '‎' || c = '‏' || c = '‪' || c = '‫' || c = '‬' || c = '‭' || c = '‮'

/-- `WhatsAppParser.normalizeText`. -/
def normalizeText (s : List Char) : List Char :=
  trimStr (s.filter (fun c => !isDirectionMark c))

/-- `WhatsAppParser.normalizeArabicNumerals`. -/
def normalizeArabicNumerals (s : List Char) : List Char :=
  s.map (fun c => if '٠' ≤ c && c ≤ '٩' then Char.ofNat (c.toNat - '٠'.toNat + '0'.toNat) else c)

/-! ## Message records

`Omit<InsertMessage, "chatId">` as produced by the parser: `content`,
`sender`, `isFromMe`, `timestamp`, `isSystemMessage` always set, media
fields absent (`none`) until the classifier or correlator fills them. -/

structure Msg where
  content : List Char
  sender : Option (List Char)
  isFromMe : Bool
  timestamp : JsDate
  isSystemMessage : Bool
  mediaType : Option (List Char) := none
  mediaName : Option (List Char) := none
  mediaUrl : Option (List Char) := none
  deriving Repr, DecidableEq

/-! ## Media reference classifier: `parseMediaAttachment` -/

/-- Case-insensitive `startsWith` (the `i` flag). -/
def startsWithCI (pat s : List Char) : Bool :=
  startsWithCh (lowerStr pat) (lowerStr s)

/-- The character class `[\w\-]`. -/
def isNameCh (c : Char) : Bool := isWordCh c || c = '-'

/-- Characters matched by `.` (everything but line terminators). -/
def isDotCh (c : Char) : Bool :=
  !(c = '\n' || c = '\r' || c = ' ' || c = ' ')

/-- Extension allowlist of the bare generic filename pattern. -/
def extBareList : List String :=
  ["jpg", "jpeg", "png", "gif", "webp", "mp4", "mov", "avi", "3gp", "opus",
   "mp3", "ogg", "m4a", "pdf", "doc", "docx", "txt", "xlsx"]

/-- Extension allowlist of the embedded generic pattern (no `xlsx`). -/
def extEmbedList : List String :=
  ["jpg", "jpeg", "png", "gif", "webp", "mp4", "mov", "avi", "3gp", "opus",
   "mp3", "ogg", "m4a", "pdf", "doc", "docx", "txt"]

/-- `(?:IMG|VID|AUD|DOC|PTT)-\d{8}-WA\d+\.\w+` tried at position `i`
(case-insensitively); returns the end position of the greedy match.
`\d{8}` and the following `-` force the digit run to have length exactly
8, and `\d+\.` / `\w+` are deterministic maximal munches. -/
def vendorMatchEnd (s : List Char) (i : Nat) : Option Nat := do
  guard ((["IMG", "VID", "AUD", "DOC", "PTT"].any
    (fun w => startsWithCI w.data (s.drop i))) = true)
  guard (charAt s (i + 3) = some '-')
  guard (8 ≤ runFrom isDigitCh s (i + 4))
  guard (charAt s (i + 12) = some '-')
  guard (startsWithCI "WA".data (s.drop (i + 13)) = true)
  let rd := runFrom isDigitCh s (i + 15)
  guard (1 ≤ rd)
  let pd := i + 15 + rd
  guard (charAt s pd = some '.')
  let rw := runFrom isWordCh s (pd + 1)
  guard (1 ≤ rw)
  pure (pd + 1 + rw)

/-- `^[\w\-]+\.(?:jpg|…|xlsx)$` with the `i` flag: the class cannot
contain `.`, so the name part is the maximal leading `[\w\-]` run, the
next character must be the dot, and the remainder must equal one of the
extensions. -/
def isGenericBareFilename (s : List Char) : Bool :=
  let r := countLeading isNameCh s
  1 ≤ r && charAt s r = some '.' &&
    extBareList.any (fun e => lowerStr (s.drop (r + 1)) = lowerStr e.data)

/-- `^(?:IMG|VID|AUD|DOC|PTT)-\d{8}-WA\d+\.\w+$` with the `i` flag. -/
def isVendorBareFilename (s : List Char) : Bool :=
  vendorMatchEnd s 0 = some s.length

/-- Leftmost match of the embedded vendor pattern (`/gi`, first match). -/
def embeddedVendorSearchAux (s : List Char) : Nat → Nat → Option (List Char)
  | _, 0 => none
  | i, fuel + 1 =>
    match vendorMatchEnd s i with
    | some e => some (slice s i e)
    | none => if i ≥ s.length then none else embeddedVendorSearchAux s (i + 1) fuel

def embeddedVendorSearch (s : List Char) : Option (List Char) :=
  embeddedVendorSearchAux s 0 (s.length + 1)

/-- `\b`: exactly one of the two neighbouring characters is a `\w`
character (the virtual characters beyond the ends are non-word). -/
def wordBoundaryAt (s : List Char) (i : Nat) : Bool :=
  let before :=
    match i with
    | 0 => false
    | j + 1 => ((charAt s j).map isWordCh).getD false
  let here := ((charAt s i).map isWordCh).getD false
  before != here

/-- The embedded generic pattern `\b[\w\-]+\.(?:jpg|…|txt)` at `i`:
returns the end of the match.  Extensions are tried in source order and,
with no trailing anchor, the first alternative that fits wins (so `doc`
beats `docx` here). -/
def embeddedGenericAt (s : List Char) (i : Nat) : Option Nat := do
  guard (wordBoundaryAt s i = true)
  let r := runFrom isNameCh s i
  guard (1 ≤ r)
  guard (charAt s (i + r) = some '.')
  let e ← extEmbedList.find? (fun e => startsWithCI e.data (s.drop (i + r + 1)))
  pure (i + r + 1 + e.length)

def embeddedGenericSearchAux (s : List Char) : Nat → Nat → Option (List Char)
  | _, 0 => none
  | i, fuel + 1 =>
    match embeddedGenericAt s i with
    | some e => some (slice s i e)
    | none => if i ≥ s.length then none else embeddedGenericSearchAux s (i + 1) fuel

def embeddedGenericSearch (s : List Char) : Option (List Char) :=
  embeddedGenericSearchAux s 0 (s.length + 1)

/-- `/^(IMG|…)-\d{8}-WA\d+/i`-style head tests (no extension, prefix only). -/
def vendorHeadAfter (s : List Char) : Bool :=
  charAt s 3 = some '-' && decide (8 ≤ runFrom isDigitCh s 4) &&
  charAt s 12 = some '-' && startsWithCI "WA".data (s.drop 13) &&
  decide (1 ≤ runFrom isDigitCh s 15)

def vendorHead (w : String) (s : List Char) : Bool :=
  startsWithCI w.data s && vendorHeadAfter s

/-! ### `mediaRegex`

`/(.*?)\s*\((?:file attached|الملف مرفق)\)|(.*?)\s*<attached:\s*(.+?)>|<.*?(تم استبعاد|omitted).*?>/i`

The engine tries the three alternatives at each successive start position
and returns the leftmost match, preferring the earlier alternative at the
same position; the lazy `(.*?)` pieces expand one `.`-matching character
at a time.  Only captures 1-3 are consumed by the caller
(`mediaMatch[3] || mediaMatch[1] || mediaMatch[2]`); the third alternative
sets none of them. -/

structure MediaRegexGroups where
  g1 : Option (List Char)
  g2 : Option (List Char)
  g3 : Option (List Char)
  deriving Repr, DecidableEq

/-- Minimal `k ≥ i` reachable through `.`-matching characters such that
`stop k` holds. -/
def scanLazy (s : List Char) (stop : Nat → Bool) : Nat → Nat → Option Nat
  | _, 0 => none
  | k, fuel + 1 =>
    if stop k then some k
    else
      match charAt s k with
      | some c => if isDotCh c then scanLazy s stop (k + 1) fuel else none
      | none => none

/-- Alternative 1 continuation `\s*\((?:file attached|الملف مرفق)\)` at `k`. -/
def alt1At (s : List Char) (k : Nat) : Bool :=
  let j := k + runFrom isSpaceCh s k
  startsWithCI "(file attached)".data (s.drop j) ||
  startsWithCI "(الملف مرفق)".data (s.drop j)

/-- Alternative 2 continuation `\s*<attached:\s*(.+?)>` at `k`; returns the
name capture. -/
def alt2At (s : List Char) (k : Nat) : Option (List Char) := do
  let j := k + runFrom isSpaceCh s k
  guard (startsWithCI "<attached:".data (s.drop j) = true)
  let j2 := j + 10
  let j3 := j2 + runFrom isSpaceCh s j2
  -- `(.+?)>`: at least one `.`-matching character, then the first `>`
  guard ((match charAt s j3 with | some c => isDotCh c | none => false) = true)
  let r ← scanLazy s (fun r => charAt s r = some '>') (j3 + 1) (s.length + 2)
  pure (slice s j3 r)

/-- Alternative 3 `<.*?(تم استبعاد|omitted).*?>` at `i` (match test only;
its capture is never read by the caller). -/
def alt3At (s : List Char) (i : Nat) : Bool :=
  charAt s i = some '<' &&
  (scanLazy s
    (fun j =>
      (startsWithCh "تم استبعاد".data (s.drop j) &&
        (scanLazy s (fun r => charAt s r = some '>') (j + 10) (s.length + 2)).isSome) ||
      (startsWithCI "omitted".data (s.drop j) &&
        (scanLazy s (fun r => charAt s r = some '>') (j + 7) (s.length + 2)).isSome))
    (i + 1) (s.length + 2)).isSome

/-- One start position of `mediaRegex`: try the three alternatives. -/
def mediaRegexAt (s : List Char) (i : Nat) : Option MediaRegexGroups :=
  match scanLazy s (alt1At s) i (s.length + 2) with
  | some k => some ⟨some (slice s i k), none, none⟩
  | none =>
    match scanLazy s (fun k => (alt2At s k).isSome) i (s.length + 2) with
    | some k => some ⟨none, some (slice s i k), alt2At s k⟩
    | none => if alt3At s i then some ⟨none, none, none⟩ else none

def mediaRegexSearchAux (s : List Char) : Nat → Nat → Option MediaRegexGroups
  | _, 0 => none
  | i, fuel + 1 =>
    match mediaRegexAt s i with
    | some g => some g
    | none => if i ≥ s.length then none else mediaRegexSearchAux s (i + 1) fuel

/-- `content.match(mediaRegex)`. -/
def mediaRegexSearch (s : List Char) : Option MediaRegexGroups :=
  mediaRegexSearchAux s 0 (s.length + 1)

/-! ### Bare URL detection -/

/-- `https?:\/\/\S+` at position `i` (exact-case literal; the test path
applies it to the lowercased content, reproducing the `i`-less regex on
`lowerContent`).  Returns the end of the greedy `\S+`. -/
def httpMatchAt (s : List Char) (i : Nat) : Option Nat :=
  let after : Nat → Option Nat := fun b =>
    let r := runFrom (fun c => !isSpaceCh c) s b
    if 1 ≤ r then some (b + r) else none
  if startsWithCh "https://".data (s.drop i) then after (i + 8)
  else if startsWithCh "http://".data (s.drop i) then after (i + 7)
  else none

/-- `\bhttps?:\/\/\S+` test (used on the lowercased content). -/
def urlTestAux (s : List Char) : Nat → Nat → Bool
  | _, 0 => false
  | i, fuel + 1 =>
    (wordBoundaryAt s i && (httpMatchAt s i).isSome) ||
    (if i ≥ s.length then false else urlTestAux s (i + 1) fuel)

def urlTest (s : List Char) : Bool := urlTestAux s 0 (s.length + 1)

/-- `content.match(/https?:\/\/\S+/)` (no boundary, case-sensitive). -/
def urlSearchAux (s : List Char) : Nat → Nat → Option (List Char)
  | _, 0 => none
  | i, fuel + 1 =>
    match httpMatchAt s i with
    | some e => some (slice s i e)
    | none => if i ≥ s.length then none else urlSearchAux s (i + 1) fuel

def urlSearch (s : List Char) : Option (List Char) :=
  urlSearchAux s 0 (s.length + 1)

/-! ### The classifier -/

/-- JavaScript truthiness choice `g3 || g1 || g2` (empty string is falsy). -/
def firstTruthy : List (Option (List Char)) → Option (List Char)
  | [] => none
  | some s :: rest => if s = [] then firstTruthy rest else some s
  | none :: rest => firstTruthy rest

/-- `WhatsAppParser.parseMediaAttachment` (lines 214-291), as a pure
function: the computed `(mediaType, mediaName, mediaUrl)` triple (a
branch that assigns nothing passes the old field through). -/
def classifyMedia (m : Msg) : Option (List Char) × Option (List Char) × Option (List Char) :=
  if m.content = [] then (m.mediaType, m.mediaName, m.mediaUrl)
  else
    let lowerContent := lowerStr m.content
    let originalContent := trimStr m.content
    let isBareFilename :=
      isVendorBareFilename originalContent || isGenericBareFilename originalContent
    let extractedFilename : Option (List Char) :=
      if isBareFilename then some originalContent
      else
        match embeddedVendorSearch originalContent with
        | some f => some f
        | none => embeddedGenericSearch originalContent
    let hasMediaIndicator :=
      isBareFilename ||
      containsCh "(file attached)".data lowerContent ||
      containsCh "(الملف مرفق)".data lowerContent ||
      containsCh "الملف مرفق".data originalContent ||
      containsCh "<attached:".data lowerContent ||
      containsCh "تم استبعاد".data originalContent ||
      containsCh "omitted".data lowerContent
    if hasMediaIndicator then
      let mediaMatch := mediaRegexSearch m.content
      let mt : List Char :=
        if containsCh "image omitted".data lowerContent ||
           containsCh "تم استبعاد الصورة".data originalContent ||
           containsCh ".jpg".data lowerContent || containsCh ".png".data lowerContent ||
           containsCh ".jpeg".data lowerContent || containsCh ".gif".data lowerContent ||
           containsCh ".webp".data lowerContent || vendorHead "IMG" originalContent then
          "image".data
        else if containsCh "video omitted".data lowerContent ||
           containsCh "تم استبعاد الفيديو".data originalContent ||
           containsCh ".mp4".data lowerContent || containsCh ".mov".data lowerContent ||
           containsCh ".avi".data lowerContent || containsCh ".3gp".data lowerContent ||
           vendorHead "VID" originalContent then
          "video".data
        else if containsCh "audio omitted".data lowerContent ||
           containsCh "voice message".data lowerContent ||
           containsCh "تم استبعاد الصوت".data originalContent ||
           containsCh ".opus".data lowerContent || containsCh ".mp3".data lowerContent ||
           containsCh "ptt".data lowerContent || containsCh ".ogg".data lowerContent ||
           containsCh ".m4a".data lowerContent ||
           vendorHead "PTT" originalContent || vendorHead "AUD" originalContent then
          "audio".data
        else if containsCh ".pdf".data lowerContent || containsCh ".doc".data lowerContent ||
           containsCh ".txt".data lowerContent || containsCh ".docx".data lowerContent ||
           containsCh ".xlsx".data lowerContent || vendorHead "DOC" originalContent then
          "document".data
        else if containsCh "الوسائط".data originalContent ||
           containsCh "تم استبعاد".data originalContent then
          "image".data
        else "file".data
      let newName : Option (List Char) :=
        match extractedFilename with
        | some ef => some (trimStr ef)
        | none =>
          match mediaMatch with
          | some g =>
            match firstTruthy [g.g3, g.g1, g.g2] with
            | some f => some (trimStr f)
            | none => m.mediaName
          | none => m.mediaName
      (some mt, newName, m.mediaUrl)
    else if urlTest lowerContent then
      match urlSearch m.content with
      | some u => (some "link".data, m.mediaName, some u)
      | none => (m.mediaType, m.mediaName, m.mediaUrl)
    else (m.mediaType, m.mediaName, m.mediaUrl)

/-- The classifier as an in-place update: only the three media fields are
ever assigned. -/
def parseMediaAttachment (m : Msg) : Msg :=
  { m with mediaType := (classifyMedia m).1, mediaName := (classifyMedia m).2.1,
           mediaUrl := (classifyMedia m).2.2 }

/-! ## Transcript parser: `WhatsAppParser.parseExport`

The line loop of lines 51-126 carries the accumulated `messages`, the
open `currentMessage`, the `isGroup` flag and the insertion-ordered
`senderCounts` map.  (The source also carries `skipFirstLine` and
`firstNonSystemSender`, both of which are written but never read; they
are omitted here.)  The first line additionally gets the encryption-notice
test; every later line goes through the uniform step below. -/

/-- The multilingual self-identifier list (`youIdentifiers`, line 21). -/
def youIdentifiers : List String :=
  ["You", "you", "أنت", "انت", "Vous", "Tu", "Tú", "Du", "Sie", "Você"]

/-- `WhatsAppParser.isYou`. -/
def isYou (sender : List Char) : Bool :=
  youIdentifiers.any (fun idf => lowerStr (trimStr sender) = lowerStr idf.data)

/-- Insertion-ordered `Map<string, number>` as an association list with
distinct keys: `set(k, get(k) + 1)` keeps an existing key's position. -/
def countsInc (counts : List (List Char × Nat)) (k : List Char) :
    List (List Char × Nat) :=
  if (counts.find? (fun p => p.1 = k)).isSome then
    counts.map (fun p => if p.1 = k then (p.1, p.2 + 1) else p)
  else counts ++ [(k, 1)]

structure ScanState where
  messages : List Msg
  currentMessage : Option Msg
  isGroup : Bool
  senderCounts : List (List Char × Nat)
  deriving Repr, DecidableEq

def initScan : ScanState := ⟨[], none, false, []⟩

/-- Finalized output: the pushed messages plus the still-open one
(lines 128-130). -/
def finalizeScan (st : ScanState) : List Msg :=
  st.messages ++ (match st.currentMessage with | some c => [c] | none => [])

/-- One iteration of the line loop for a non-first line (or a first line
that is not an encryption notice). -/
def scanStep (now : JsDate) (st : ScanState) (line : List Char) : ScanState :=
  if trimStr line = [] then st
  else
    let l := normalizeArabicNumerals (normalizeText line)
    match msgRegexMatch l with
    | some mm =>
      let msgs := st.messages ++
        (match st.currentMessage with | some c => [c] | none => [])
      let parsedTimestamp := parseTimestampWith now mm.ts
      let trimmedSender := trimStr mm.sender
      let counts := countsInc st.senderCounts trimmedSender
      if isYou trimmedSender then
        { messages := msgs,
          currentMessage := some (parseMediaAttachment
            ⟨mm.content, some "You".data, true, parsedTimestamp, false, none, none, none⟩),
          isGroup := st.isGroup,
          senderCounts := counts }
      else
        { messages := msgs,
          currentMessage := some (parseMediaAttachment
            ⟨mm.content, some trimmedSender, false, parsedTimestamp, false, none, none, none⟩),
          isGroup := st.isGroup || decide (counts.length > 1),
          senderCounts := counts }
    | none =>
      match sysRegexMatch l with
      | some sm =>
        let msgs := st.messages ++
          (match st.currentMessage with | some c => [c] | none => [])
        { messages := msgs,
          currentMessage := some
            ⟨sm.content, none, false, parseTimestampWith now sm.ts, true, none, none, none⟩,
          isGroup := st.isGroup,
          senderCounts := st.senderCounts }
      | none =>
        match st.currentMessage with
        | some c =>
          if c.isSystemMessage then st
          else { st with currentMessage := some (parseMediaAttachment
              { c with content := c.content ++ '\n' :: l }) }
        | none => st

/-- The whole line loop: the encryption-notice test applies to line 0
only (and only after the blank-line test, lines 53-58). -/
def scanLines (now : JsDate) (lines : List (List Char)) : ScanState :=
  match lines with
  | [] => initScan
  | l0 :: rest =>
    let st0 :=
      if trimStr l0 ≠ [] ∧ encryptionNoticeTest l0 then initScan
      else scanStep now initScan l0
    rest.foldl (scanStep now) st0

/-- `messages.some(msg => msg.isFromMe)` (line 132). -/
def hasYouSender (msgs : List Msg) : Bool := msgs.any (fun m => m.isFromMe)

/-- Stable descending sort by count (`senders.sort((a, b) => count(b) -
count(a))`; `Array.prototype.sort` is stable).  Elements are inserted
from the right, so an element is placed before equal-count elements that
followed it originally. -/
def insertDesc (x : List Char × Nat) : List (List Char × Nat) → List (List Char × Nat)
  | [] => [x]
  | y :: rest => if x.2 ≥ y.2 then x :: y :: rest else y :: insertDesc x rest

def sortSendersDesc : List (List Char × Nat) → List (List Char × Nat)
  | [] => []
  | x :: rest => insertDesc x (sortSendersDesc rest)

/-- The per-message relabeling of lines 152-158: mark the message own
when its sender is the chosen one and it is not a system message. -/
def relabelFun (s : List Char) (m : Msg) : Msg :=
  if m.sender = some s && !m.isSystemMessage then { m with isFromMe := true } else m

/-- The retroactive self-identification pass (lines 132-159).  The source
compares `(topCount / total) * 100 > 60` in double arithmetic; for the
integer ranges reachable here this agrees with the exact rational
comparison `100 * topCount > 60 * total` (in particular at an exact 60%
split the quotient `3/5` rounds to the double nearest `0.6`, whose product
with 100 rounds to exactly 60, so neither comparison fires). -/
def relabelMessages (msgs : List Msg) (counts : List (List Char × Nat)) : List Msg :=
  if hasYouSender msgs || counts.length = 0 then msgs
  else
    let meSender : Option (List Char) :=
      if counts.length = 1 then some (counts.headD ([], 0)).1
      else if counts.length = 2 then
        let sorted := sortSendersDesc counts
        let top := sorted.headD ([], 0)
        let total := (msgs.filter (fun m => !m.isSystemMessage)).length
        if 100 * top.2 > 60 * total then some top.1 else none
      else none
    match meSender with
    | some s => msgs.map (relabelFun s)
    | none => msgs

structure ParsedChat where
  name : List Char
  messages : List Msg
  isGroup : Bool
  deriving Repr, DecidableEq

/-- `WhatsAppParser.parseExport`.  `now` is the wall clock used by the
`parseTimestamp` fallback. -/
def parseExport (now : JsDate) (content : List Char) (chatName : List Char) : ParsedChat :=
  let lines := splitCh '\n' content
  let st := scanLines now lines
  let msgs := finalizeScan st
  ⟨chatName, relabelMessages msgs st.senderCounts, st.isGroup⟩

/-! ## Media correlator: `WhatsAppParser.mapMediaToMessages`

Media descriptors are tagged with their position in the input array: two
`MediaFile` objects with equal fields are still distinct JavaScript
objects, and the source compares them with `!==` (line 327), which the
index models.  `mediaByFilename` maps lowercased filename to the tagged
entry (`Map.set` overwrites, so a later duplicate filename shadows an
earlier one); `mediaByDate.get(key)` is the sublist of entries whose
timestamp has that calendar-day key, in encounter order, which is exactly
`filter` over the original list. -/

structure MediaFile where
  filename : List Char
  timestamp : JsDate
  type : List Char
  deriving Repr, DecidableEq

abbrev PoolEntry := Nat × MediaFile

/-- `Map.set` on an association list: replace in place or append. -/
def assocSet (m : List (List Char × PoolEntry)) (k : List Char) (v : PoolEntry) :
    List (List Char × PoolEntry) :=
  if (m.find? (fun p => p.1 = k)).isSome then
    m.map (fun p => if p.1 = k then (p.1, v) else p)
  else m ++ [(k, v)]

def assocGet (m : List (List Char × PoolEntry)) (k : List Char) : Option PoolEntry :=
  (m.find? (fun p => p.1 = k)).map (fun p => p.2)

def assocDelete (m : List (List Char × PoolEntry)) (k : List Char) :
    List (List Char × PoolEntry) :=
  m.filter (fun p => p.1 ≠ k)

/-- The `mediaByFilename` index built by the first loop (lines 297-304). -/
def buildByFilename (pool : List PoolEntry) : List (List Char × PoolEntry) :=
  pool.foldl (fun acc e => assocSet acc (lowerStr e.2.filename) e) []

/-- `WhatsAppParser.mediaTypeMatches` (lines 358-374). -/
def mediaTypeMatches (messageType : Option (List Char)) (fileExtension : List Char) : Bool :=
  match messageType with
  | none => false
  | some mt =>
    let ext := lowerStr fileExtension
    let mem : List String → Bool := fun l => l.any (fun e => e.data = ext)
    if mt = "image".data then mem ["jpg", "jpeg", "png", "gif", "webp", "bmp"]
    else if mt = "video".data then mem ["mp4", "mov", "avi", "3gp", "mkv", "webm"]
    else if mt = "audio".data then mem ["opus", "mp3", "ogg", "m4a", "aac", "wav"]
    else if mt = "document".data then
      mem ["pdf", "doc", "docx", "txt", "xlsx", "xls", "ppt", "pptx"]
    else true

/-- Absolute file/message time difference in milliseconds (line 331). -/
def tdOf (msg : Msg) (e : PoolEntry) : Int :=
  |getTime e.2.timestamp - getTime msg.timestamp|

/-- The `continue` guard of lines 326-329, negated: a candidate passes
exactly when the filename index either has no entry for its lowercased
key, or the entry is the same object (`!==` compares identity, modeled by
the pool index tag). -/
def notShadowed (byName : List (List Char × PoolEntry)) (e : PoolEntry) : Bool :=
  match assocGet byName (lowerStr e.2.filename) with
  | some got => got.1 = e.1
  | none => true

/-- Eligibility of a fuzzy candidate for `msg` (the `continue` guard of
lines 326-329, the type/window test of line 334, and the requirement that
its score `10000000 - timeDiff` beat the initial `bestScore = 0`). -/
def fuzzyEligible (byName : List (List Char × PoolEntry)) (msg : Msg) (e : PoolEntry) : Bool :=
  notShadowed byName e &&
  mediaTypeMatches msg.mediaType e.2.type &&
  decide (tdOf msg e < 86400000) &&
  decide (0 < 10000000 - tdOf msg e)

/-- The fuzzy-scoring loop of lines 323-341: strict improvement over a
best score starting at 0. -/
def fuzzyStep (byName : List (List Char × PoolEntry)) (msg : Msg)
    (acc : Int × Option PoolEntry) (e : PoolEntry) : Int × Option PoolEntry :=
  if notShadowed byName e = false then acc
  else if mediaTypeMatches msg.mediaType e.2.type && decide (tdOf msg e < 86400000) then
    if 10000000 - tdOf msg e > acc.1 then (10000000 - tdOf msg e, some e) else acc
  else acc

def fuzzyLoop (byName : List (List Char × PoolEntry)) (msg : Msg)
    (cands : List PoolEntry) : Option PoolEntry :=
  (cands.foldl (fuzzyStep byName msg) (0, none)).2

/-- The guard of line 307: `!message.mediaType || message.mediaType ===
'link'` — JavaScript falsiness makes this also skip an empty-string
kind. -/
def isSkippedType : Option (List Char) → Bool
  | none => true
  | some t => t = [] || t = "link".data

/-- The exact-filename lookup of lines 311-317 (`if (message.mediaName)`
is again a truthiness test, false for the empty string). -/
def exactFor (byName : List (List Char × PoolEntry)) (msg : Msg) : Option PoolEntry :=
  match msg.mediaName with
  | some n => if n = [] then none else assocGet byName (lowerStr n)
  | none => none

/-- `bestMatch` after both steps: the exact hit if any, else the result
of the fuzzy-scoring loop over the same-calendar-day candidates. -/
def bestMatchFor (pool : List PoolEntry) (byName : List (List Char × PoolEntry))
    (msg : Msg) : Option PoolEntry :=
  match exactFor byName msg with
  | some e => some e
  | none =>
    fuzzyLoop byName msg
      (pool.filter (fun e => dateKeyOf e.2.timestamp = dateKeyOf msg.timestamp))

/-- One iteration of the message loop (lines 306-351): returns the
possibly-updated message and the updated `mediaByFilename` index. -/
def processMessage (userId : List Char) (pool : List PoolEntry)
    (byName : List (List Char × PoolEntry)) (msg : Msg) :
    Msg × List (List Char × PoolEntry) :=
  if isSkippedType msg.mediaType then (msg, byName)
  else
    match bestMatchFor pool byName msg with
    | none => (msg, byName)
    | some e =>
      let url := "/media/".data ++ userId ++ "/".data ++ e.2.filename
      let newName :=
        match msg.mediaName with
        | none => some e.2.filename
        | some n => if n = [] then some e.2.filename else some n
      ({ msg with mediaUrl := some url, mediaName := newName },
       assocDelete byName (lowerStr e.2.filename))

/-- The message loop (`for (const message of messages)`), threading the
`mediaByFilename` index through the in-place updates. -/
def correlateMsgs (userId : List Char) (pool : List PoolEntry) :
    List (List Char × PoolEntry) → List Msg → List Msg
  | _, [] => []
  | byName, m :: rest =>
    let r := processMessage userId pool byName m
    r.1 :: correlateMsgs userId pool r.2 rest

/-- `WhatsAppParser.mapMediaToMessages`. -/
def mapMediaToMessages (msgs : List Msg) (mediaFiles : List MediaFile)
    (userId : List Char) : List Msg :=
  let pool := mediaFiles.enum
  correlateMsgs userId pool (buildByFilename pool) msgs

/-- `StreamingZipProcessor.mapMediaToChats` (part_002 lines 231-239):
every parsed chat is correlated against the same full media list, with a
fresh `WhatsAppParser` - and therefore fresh `mediaByFilename` and
`mediaByDate` maps - per chat. -/
def mapMediaToChats (chats : List ParsedChat) (mediaFiles : List MediaFile)
    (userId : List Char) : List ParsedChat :=
  chats.map (fun c =>
    { c with messages := mapMediaToMessages c.messages mediaFiles userId })

/-! ## Streaming archive ingestion pipeline: `StreamingZipProcessor`

State-machine model of `process` / `extractZipStreaming` /
`cleanupOnFailure` (part_002).  The disk is an abstract set of paths.
Entries are read strictly sequentially.  A `.txt` entry is buffered in
memory (no disk write); its stream may error (`readOk = false`), which
rejects the extraction.  Any other entry is streamed to
`uploads/media/<userId>/<basename>`: `createWriteStream(destPath)` creates
the file on disk immediately, and only after `await pipeline(...)`
succeeds is the path pushed onto the `extractedMediaPaths` ledger
(lines 161-167); a failed write (`writeOk = false`) rejects with the
partially-written file already on disk and not in the ledger.  After
extraction, parsing and correlation are pure; the storage step may fail
(`saveOk`).  On any failure `cleanupOnFailure` unlinks the source archive
and every ledger path (unlink errors are swallowed in the source; unlinks
succeed in the model). -/

inductive ZipEntry where
  | dir (name : List Char)
  | chat (name content : List Char) (readOk : Bool)
  | media (name : List Char) (writeOk : Bool)
  deriving Repr, DecidableEq

/-- `path.basename`. -/
def basenameOf (name : List Char) : List Char :=
  (splitCh '/' name).getLastD []

/-- `path.join('uploads', 'media', userId, basename)`. -/
def mediaDest (userId name : List Char) : List Char :=
  "uploads/media/".data ++ userId ++ "/".data ++ basenameOf name

structure PipeState where
  disk : List (List Char)
  ledger : List (List Char)
  deriving Repr, DecidableEq

/-- Add a path to the disk (writing over an existing file keeps one path). -/
def diskAdd (disk : List (List Char)) (p : List Char) : List (List Char) :=
  if p ∈ disk then disk else disk ++ [p]

/-- The entry loop of `extractZipStreaming`; `Except.error` is a
`reject(...)` carrying the state at failure time. -/
def extractEntries (userId : List Char) :
    List ZipEntry → PipeState → Except PipeState PipeState
  | [], st => .ok st
  | e :: rest, st =>
    match e with
    | .dir _ => extractEntries userId rest st
    | .chat _ _ readOk =>
      if readOk then extractEntries userId rest st else .error st
    | .media name writeOk =>
      let dest := mediaDest userId name
      let st1 : PipeState := { st with disk := diskAdd st.disk dest }
      if writeOk then
        extractEntries userId rest { st1 with ledger := st1.ledger ++ [dest] }
      else .error st1

inductive JobStatus | completed | failed
  deriving Repr, DecidableEq

structure JobConfig where
  userId : List Char
  archivePath : List Char
  entries : List ZipEntry
  saveOk : Bool

structure JobResult where
  status : JobStatus
  disk : List (List Char)

/-- `cleanupOnFailure`: unlink the source archive, then every ledger path. -/
def cleanupDisk (archivePath : List Char) (st : PipeState) : List (List Char) :=
  (st.disk.filter (fun p => p ≠ archivePath)).filter (fun p => ¬ p ∈ st.ledger)

/-- `StreamingZipProcessor.process`: extraction, then the pure
parse/correlate stages, then storage (which may fail), then source
deletion and completion; the surrounding `try`/`catch` marks the job
failed and runs `cleanupOnFailure`. -/
def runJob (cfg : JobConfig) : JobResult :=
  let init : PipeState := ⟨[cfg.archivePath], []⟩
  match extractEntries cfg.userId cfg.entries init with
  | .error st => ⟨.failed, cleanupDisk cfg.archivePath st⟩
  | .ok st =>
    if cfg.saveOk then
      ⟨.completed, st.disk.filter (fun p => p ≠ cfg.archivePath)⟩
    else ⟨.failed, cleanupDisk cfg.archivePath st⟩

/-! ## Auxiliary definitions for the statements below

Characterizations used by theorem statements (per-line group trigger,
first-minimum selection, the correlator frame relation) and the concrete
fixtures the counterexamples and witnesses evaluate. -/

/-- Does processing `line` from state `st` set the group flag?  Exactly
when the line is non-blank, parses as a user message, its trimmed sender
is not a self identifier, and after counting it the number of distinct
senders seen (self-identified ones included) exceeds one. -/
def stepSetsGroup (st : ScanState) (line : List Char) : Bool :=
  if trimStr line = [] then false
  else
    match msgRegexMatch (normalizeArabicNumerals (normalizeText line)) with
    | some mm =>
      !isYou (trimStr mm.sender) &&
      decide ((countsInc st.senderCounts (trimStr mm.sender)).length > 1)
    | none => false

/-- Some line of the list triggers the group flag, threading the scan
state. -/
def existsGroupTrigger (now : JsDate) (st : ScanState) : List (List Char) → Bool
  | [] => false
  | l :: rest => stepSetsGroup st l || existsGroupTrigger now (scanStep now st l) rest

/-- Group trigger over a whole transcript, with the first-line
encryption-notice exception of `scanLines`. -/
def groupTriggerLines (now : JsDate) : List (List Char) → Bool
  | [] => false
  | l0 :: rest =>
    if trimStr l0 ≠ [] ∧ encryptionNoticeTest l0 then
      existsGroupTrigger now initScan rest
    else
      stepSetsGroup initScan l0 ||
        existsGroupTrigger now (scanStep now initScan l0) rest

/-- First element attaining the minimum of `tdOf msg` (later elements
must be strictly smaller to displace the incumbent). -/
def argMinFirstTD (msg : Msg) (l : List PoolEntry) : Option PoolEntry :=
  l.foldl
    (fun acc e =>
      match acc with
      | none => some e
      | some b => if tdOf msg e < tdOf msg b then some e else acc)
    none

/-- The text `pat` already appears in the parse state: in some pushed
message's content or in the open message's content. -/
def holdsIn (pat : List Char) (st : ScanState) : Prop :=
  (∃ m ∈ st.messages, containsCh pat m.content = true) ∨
  (∃ c, st.currentMessage = some c ∧ containsCh pat c.content = true)

/-- Frame relation between an input message and its correlated output:
all non-media fields unchanged, `mediaType` unchanged, `mediaUrl` either
untouched or set (to `some`) on a message whose `mediaType` is a truthy
non-link kind, and `mediaName` unchanged whenever it was neither null nor
empty. -/
def FramePreserved (m m' : Msg) : Prop :=
  m'.content = m.content ∧ m'.sender = m.sender ∧ m'.isFromMe = m.isFromMe ∧
  m'.timestamp = m.timestamp ∧ m'.isSystemMessage = m.isSystemMessage ∧
  m'.mediaType = m.mediaType ∧
  (m'.mediaUrl = m.mediaUrl ∨
    (m.mediaType ≠ none ∧ m.mediaType ≠ some [] ∧ m.mediaType ≠ some "link".data ∧
      ∃ u, m'.mediaUrl = some u)) ∧
  ((m.mediaName ≠ none ∧ m.mediaName ≠ some []) → m'.mediaName = m.mediaName)

/-! ### Concrete fixtures -/

/-- A fixed wall clock for the `parseTimestamp` fallback. -/
def dNow : JsDate := ⟨2026, 1, 1, 0, 0, 0⟩

/-- December 5, 2023 at the given hour and minute. -/
def dec5 (h mi : Int) : JsDate := ⟨2023, 12, 5, h, mi, 0⟩

/-- An audio message (no extracted filename) at the given time. -/
def audioAt (h mi : Int) : Msg :=
  ⟨"m".data, some "A".data, false, dec5 h mi, false, some "audio".data, none, none⟩

def voiceMp3 : MediaFile := ⟨"voice.mp3".data, dec5 10 0, "mp3".data⟩

def otherMp3 : MediaFile := ⟨"other.mp3".data, dec5 13 0, "mp3".data⟩

/-- A message carrying an empty-string (non-null) `mediaName`. -/
def emptyNameMsg : Msg :=
  ⟨"m".data, some "A".data, false, dec5 10 0, false, some "audio".data, some [], none⟩

def chatOne : ParsedChat := ⟨"c1".data, [audioAt 10 0], false⟩

def chatTwo : ParsedChat := ⟨"c2".data, [audioAt 10 30], false⟩

/-- Two-message single-sender transcript (C3 witness). -/
def c3content : List Char :=
  "12/5/23, 3:41 PM - John: Hello\n12/5/23, 3:42 PM - John: Bye".data

/-- Self-identified sender plus exactly one other party (C5). -/
def c5content : List Char :=
  "12/5/23, 3:41 PM - You: hi\n12/5/23, 3:42 PM - Alice: yo".data

/-- A system message followed by a line matching neither grammar (C7). -/
def c7content : List Char :=
  "1/1/24, 3:00 PM - group created\nhello".data

/-- An encryption notice on line 1 and a valid message line on line 2 (C9). -/
def c9notice : List Char :=
  "Messages and calls are end-to-end encrypted. No one outside of this chat can read them.".data

def c9msgLine : List Char := "12/5/23, 3:41 PM - John: Hello".data

def c9content : List Char := c9notice ++ '\n' :: c9msgLine

/-- The message the C9 scenario expects for line 2: timestamp December 5,
2023, 15:41 (M/D/Y reading of `parseTimestamp`); `isFromMe = true` because
the single-sender retroactive relabeling applies to this transcript. -/
def c9expected : Msg :=
  ⟨"Hello".data, some "John".data, true, ⟨2023, 12, 5, 15, 41, 0⟩, false,
    none, none, none⟩

/-- Ingestion job whose only entry is a media file with a failing
streamed write (C4). -/
def c4cfg : JobConfig :=
  ⟨"u".data, "uploads/arc.zip".data, [ZipEntry.media "a.jpg".data false], true⟩

/-- An open (non-system) in-progress message (C7 witness). -/
def c7openMsg : Msg :=
  ⟨"Hi".data, some "A".data, false, ⟨2024, 1, 1, 3, 0, 0⟩, false, none, none, none⟩

/-- A scan state with `c7openMsg` open (C7 witness). -/
def c7state : ScanState := ⟨[], some c7openMsg, false, [("A".data, 1)]⟩

/-! ## Claim theorems -/

/-- Claim C1 (code bug, evaluated at the failing input): media correlation
is NOT at-most-once.  A single `voice.mp3` media file is assigned as
`mediaUrl` to both audio messages of one correlation pass (the claimed
file is deleted from `mediaByFilename`, which makes the guard of lines
326-329 pass rather than fail on it), and also to messages of two
different transcripts of the same archive (`mapMediaToChats` rebuilds the
filename index per chat). -/
theorem C1_media_consumed_twice :
    (mapMediaToMessages [audioAt 10 0, audioAt 10 30] [voiceMp3] "u".data).map
        (fun m => m.mediaUrl) =
      [some "/media/u/voice.mp3".data, some "/media/u/voice.mp3".data] ∧
    (mapMediaToChats [chatOne, chatTwo] [voiceMp3] "u".data).map
        (fun c => c.messages.map (fun m => m.mediaUrl)) =
      [[some "/media/u/voice.mp3".data], [some "/media/u/voice.mp3".data]] := by
  decide

/-- Claim C2, counterexample: for the token `1/2/23, 3:00 PM` the claim
(D/M/Y) predicts day 1, month 2; `parseTimestamp` destructures the first
captured field as `month` and the second as `day` (line 179), producing
January 2, 2023. -/
theorem C2_counterexample :
    ¬ ((parseTimestampWith dNow "1/2/23, 3:00 PM".data).day = 1 ∧
       (parseTimestampWith dNow "1/2/23, 3:00 PM".data).month = 2) := by
  decide

/-- Claim C4, counterexample: a job whose only entry is a media file with
a failing streamed write ends `failed`, yet the partially-written file
(created by `createWriteStream` but never recorded in
`extractedMediaPaths`) survives `cleanupOnFailure`. -/
theorem C4_counterexample :
    (runJob c4cfg).status = JobStatus.failed ∧
    mediaDest "u".data "a.jpg".data ∈ (runJob c4cfg).disk := by
  decide

/-- Claim C5, counterexample: a transcript whose only senders are the
self-identified `You` and one other party is marked as a group chat
(`senderCounts` counts the self sender, so Alice's line sees two distinct
senders), although only one distinct non-self sender appears. -/
theorem C5_counterexample :
    (parseExport dNow c5content "c".data).isGroup = true ∧
    ((scanLines dNow (splitCh '\n' c5content)).senderCounts.filter
        (fun p => !isYou p.1)).length = 1 := by
  decide

/-- Claim C6, counterexample: a sole unclaimed same-day `.mp3` candidate
for an audio message at a 5-hour gap satisfies every eligibility
condition of the claim (same calendar day, matching bucket, under 24
hours), yet is not assigned: its score `10000000 - Δt` is negative and
never beats the initial `bestScore = 0`. -/
theorem C6_counterexample :
    dateKeyOf voiceMp3.timestamp = dateKeyOf (audioAt 15 0).timestamp ∧
    mediaTypeMatches (audioAt 15 0).mediaType voiceMp3.type = true ∧
    |getTime voiceMp3.timestamp - getTime (audioAt 15 0).timestamp| < 86400000 ∧
    (mapMediaToMessages [audioAt 15 0] [voiceMp3] "u".data).map
        (fun m => m.mediaUrl) = [none] := by
  decide

/-- Claim C7, counterexample: the non-blank line `hello` immediately
follows a system message; it matches neither grammar and
`currentMessage.isSystemMessage` blocks the continuation branch, so it is
dropped — the parse output is the single system message and no produced
message contains it. -/
theorem C7_counterexample :
    (parseExport dNow c7content "c".data).messages.map
        (fun m => containsCh "hello".data m.content) = [false] := by
  decide

/-- Claim C10, counterexample: a matched message whose `mediaName` is the
empty string (non-null) still gets `mediaName` overwritten, because the
source tests JavaScript truthiness (`!message.mediaName`), not nullness. -/
theorem C10_counterexample :
    emptyNameMsg.mediaName = some [] ∧
    (mapMediaToMessages [emptyNameMsg] [voiceMp3] "u".data).map
        (fun m => m.mediaName) = [some "voice.mp3".data] := by
  decide

/-- Claim C8 (confirmed): 12-hour to 24-hour conversion.  `PM`/`م` with
parsed hour below 12 adds 12; `AM`/`ص` with parsed hour 12 yields 0; a
token without a meridiem keeps its parsed hour; and on whole tokens,
`12:00 AM` maps to hour 0, `12:00 PM` to hour 12, `1:30 PM` to hour 13. -/
theorem C8_hour_conversion :
    (∀ (h : Nat) (m : Meridiem), (m = Meridiem.pm ∨ m = Meridiem.meem) → h < 12 →
      convertHour h (some m) = (h : Int) + 12) ∧
    (∀ m : Meridiem, (m = Meridiem.am ∨ m = Meridiem.sad) →
      convertHour 12 (some m) = 0) ∧
    (∀ h : Nat, convertHour h none = (h : Int)) ∧
    (parseTimestampWith dNow "12/5/23, 12:00 AM".data).hour = 0 ∧
    (parseTimestampWith dNow "12/5/23, 12:00 PM".data).hour = 12 ∧
    (parseTimestampWith dNow "12/5/23, 1:30 PM".data).hour = 13 := by
  refine ⟨?_, ?_, ?_, by decide, by decide, by decide⟩
  · intro h m hm hlt
    simp only [convertHour]
    rw [if_pos ⟨hm, hlt⟩]
  · intro m hm
    simp only [convertHour]
    rw [if_neg (by omega), if_pos ⟨hm, trivial⟩]
  · intro h
    simp only [convertHour]

/-- Witness for C8: `1:00 PM` at the conversion level becomes hour 13. -/
theorem C8_hour_conversion_witness : convertHour 1 (some Meridiem.pm) = 13 := by
  have h := C8_hour_conversion.1 1 Meridiem.pm (Or.inl rfl) (by omega)
  omega

/-- Claim C9 (confirmed): the encryption-notice rule.  If and only if the
very first line (the blank-line test aside) matches the notice regex, it
is skipped — parsing of the remaining lines starts from the fresh state,
producing no message for the notice — and otherwise line 1 is processed
by the ordinary step; every later line, notice-looking or not, goes
through the ordinary step with no notice exception. -/
theorem C9_notice_skipping (now : JsDate) (l0 : List Char) (rest : List (List Char)) :
    (trimStr l0 ≠ [] ∧ encryptionNoticeTest l0 = true →
      scanLines now (l0 :: rest) = rest.foldl (scanStep now) initScan) ∧
    (¬ (trimStr l0 ≠ [] ∧ encryptionNoticeTest l0 = true) →
      scanLines now (l0 :: rest) =
        rest.foldl (scanStep now) (scanStep now initScan l0)) ∧
    (∀ (st : ScanState) (l : List Char) (more : List (List Char)),
      (l :: more).foldl (scanStep now) st =
        more.foldl (scanStep now) (scanStep now st l)) := by
  refine ⟨fun h => ?_, fun h => ?_, fun st l more => rfl⟩
  · simp only [scanLines, if_pos h]
  · simp only [scanLines, if_neg h]

/-- Witness for C9: the concrete notice line is skipped and the valid
message line on line 2 parses into the expected ordinary message. -/
theorem C9_notice_skipping_witness :
    (trimStr c9notice ≠ [] ∧ encryptionNoticeTest c9notice = true) ∧
    scanLines dNow [c9notice, c9msgLine] = [c9msgLine].foldl (scanStep dNow) initScan ∧
    (parseExport dNow c9content "c".data).messages = [c9expected] :=
  ⟨by decide, (C9_notice_skipping dNow c9notice [c9msgLine]).1 (by decide), by decide⟩

/-- `messages.some(m => m.isFromMe) = false` means every message has
`isFromMe = false`. -/
theorem hasYou_false_all {msgs : List Msg} (h : hasYouSender msgs = false) :
    ∀ m ∈ msgs, m.isFromMe = false := by
  intro m hm
  have h' := List.any_eq_false.mp h m hm
  cases hfm : m.isFromMe
  · rfl
  · exact absurd hfm h'

theorem relabelFun_isFromMe (s : List Char) (m : Msg) :
    (relabelFun s m).isFromMe =
      (m.isFromMe || (decide (m.sender = some s) && !m.isSystemMessage)) := by
  unfold relabelFun
  by_cases h : (decide (m.sender = some s) && !m.isSystemMessage) = true
  · simp [h]
  · simp only [Bool.not_eq_true] at h
    simp [h]

theorem relabelFun_sender (s : List Char) (m : Msg) :
    (relabelFun s m).sender = m.sender := by
  unfold relabelFun
  split <;> rfl

theorem relabelFun_isSystemMessage (s : List Char) (m : Msg) :
    (relabelFun s m).isSystemMessage = m.isSystemMessage := by
  unfold relabelFun
  split <;> rfl

/-- Computation of `relabelMessages` for a single-entry count map. -/
theorem relabelMessages_single (msgs : List Msg) (s : List Char) (c : Nat)
    (h : hasYouSender msgs = false) :
    relabelMessages msgs [(s, c)] = msgs.map (relabelFun s) := by
  simp [relabelMessages, h]

/-- The stable two-element descending sort. -/
theorem sortSendersDesc_two (s1 s2 : List Char) (c1 c2 : Nat) :
    sortSendersDesc [(s1, c1), (s2, c2)] =
      if c2 > c1 then [(s2, c2), (s1, c1)] else [(s1, c1), (s2, c2)] := by
  by_cases h12 : c2 > c1
  · simp [sortSendersDesc, insertDesc, h12, if_neg (by omega : ¬ c1 ≥ c2)]
  · simp [sortSendersDesc, insertDesc, if_pos (by omega : c1 ≥ c2), h12]

/-- Computation of `relabelMessages` for a two-entry count map. -/
theorem relabelMessages_two (msgs : List Msg) (s1 s2 : List Char) (c1 c2 : Nat)
    (h : hasYouSender msgs = false) :
    relabelMessages msgs [(s1, c1), (s2, c2)] =
      if 100 * (if c2 > c1 then c2 else c1) >
          60 * (msgs.filter (fun m => !m.isSystemMessage)).length then
        msgs.map (relabelFun (if c2 > c1 then s2 else s1))
      else msgs := by
  by_cases h12 : c2 > c1
  · simp only [relabelMessages, h, sortSendersDesc_two, h12, if_true]
    simp only [Bool.false_or, List.length_cons, List.length_singleton, List.length_nil]
    norm_num
    split_ifs with hA
    · rfl
    · rfl
  · simp only [relabelMessages, h, sortSendersDesc_two, h12, if_false]
    simp only [Bool.false_or, List.length_cons, List.length_singleton, List.length_nil]
    norm_num
    split_ifs with hA
    · rfl
    · rfl

/-- Three or more distinct senders: no retroactive relabeling at all. -/
theorem relabel_many {msgs : List Msg} {counts : List (List Char × Nat)}
    (h3 : 3 ≤ counts.length) : relabelMessages msgs counts = msgs := by
  simp only [relabelMessages]
  by_cases h : (hasYouSender msgs || decide (counts.length = 0)) = true
  · rw [if_pos h]
  · rw [if_neg h, if_neg (by omega : ¬ counts.length = 1),
      if_neg (by omega : ¬ counts.length = 2)]

/-- Relabeling with a single distinct sender marks every non-system
message of that sender as own. -/
theorem relabel_single {msgs : List Msg} {s : List Char} {c : Nat}
    (h : hasYouSender msgs = false) :
    ∀ m ∈ relabelMessages msgs [(s, c)], m.isSystemMessage = false →
      m.sender = some s → m.isFromMe = true := by
  intro m hm hsys hsend
  rw [relabelMessages_single msgs s c h] at hm
  rcases List.mem_map.mp hm with ⟨m₀, hm₀, rfl⟩
  rw [relabelFun_isFromMe]
  rw [relabelFun_isSystemMessage] at hsys
  rw [relabelFun_sender] at hsend
  simp [hsys, hsend]

/-- Two distinct senders above the 60% threshold: the top sender's
non-system messages — and only those — end up own. -/
theorem relabel_two_over {msgs : List Msg} {s1 s2 : List Char} {c1 c2 : Nat}
    (h : hasYouSender msgs = false)
    (hgt : 100 * (if c2 > c1 then c2 else c1) >
      60 * (msgs.filter (fun m => !m.isSystemMessage)).length) :
    ∀ m ∈ relabelMessages msgs [(s1, c1), (s2, c2)], m.isSystemMessage = false →
      (m.isFromMe = true ↔ m.sender = some (if c2 > c1 then s2 else s1)) := by
  intro m hm hsys
  rw [relabelMessages_two msgs s1 s2 c1 c2 h, if_pos hgt] at hm
  rcases List.mem_map.mp hm with ⟨m₀, hm₀, rfl⟩
  rw [relabelFun_isFromMe, relabelFun_sender]
  rw [relabelFun_isSystemMessage] at hsys
  rw [hasYou_false_all h m₀ hm₀]
  simp [hsys]

/-- Two distinct senders at or below the 60% threshold: no relabeling. -/
theorem relabel_two_under {msgs : List Msg} {s1 s2 : List Char} {c1 c2 : Nat}
    (h : hasYouSender msgs = false)
    (hle : ¬ 100 * (if c2 > c1 then c2 else c1) >
      60 * (msgs.filter (fun m => !m.isSystemMessage)).length) :
    relabelMessages msgs [(s1, c1), (s2, c2)] = msgs := by
  rw [relabelMessages_two msgs s1 s2 c1 c2 h, if_neg hle]

/-- Claim C3 (confirmed): retroactive self-identification.  When no
message was recognized as own during the scan: (a) a single distinct
sender has all their non-system messages relabeled own; (b) with exactly
two distinct senders, the higher-count sender's non-system messages are
own if and only if their count exceeds 60% of the non-system messages,
and otherwise nothing is relabeled and every message stays not-own;
(c) with three or more distinct senders nothing is relabeled. -/
theorem C3_retroactive_self_identification (now : JsDate) (content chatName : List Char)
    (hNoYou : hasYouSender (finalizeScan (scanLines now (splitCh '\n' content))) = false) :
    (∀ s c, (scanLines now (splitCh '\n' content)).senderCounts = [(s, c)] →
      ∀ m ∈ (parseExport now content chatName).messages,
        m.isSystemMessage = false → m.sender = some s → m.isFromMe = true) ∧
    (∀ s1 c1 s2 c2,
      (scanLines now (splitCh '\n' content)).senderCounts = [(s1, c1), (s2, c2)] →
      (100 * (if c2 > c1 then c2 else c1) >
          60 * ((finalizeScan (scanLines now (splitCh '\n' content))).filter
            (fun m => !m.isSystemMessage)).length →
        ∀ m ∈ (parseExport now content chatName).messages,
          m.isSystemMessage = false →
          (m.isFromMe = true ↔ m.sender = some (if c2 > c1 then s2 else s1))) ∧
      (¬ (100 * (if c2 > c1 then c2 else c1) >
          60 * ((finalizeScan (scanLines now (splitCh '\n' content))).filter
            (fun m => !m.isSystemMessage)).length) →
        (parseExport now content chatName).messages =
          finalizeScan (scanLines now (splitCh '\n' content)) ∧
        ∀ m ∈ (parseExport now content chatName).messages, m.isFromMe = false)) ∧
    (3 ≤ (scanLines now (splitCh '\n' content)).senderCounts.length →
      (parseExport now content chatName).messages =
        finalizeScan (scanLines now (splitCh '\n' content)) ∧
      ∀ m ∈ (parseExport now content chatName).messages, m.isFromMe = false) := by
  refine ⟨?_, ?_, ?_⟩
  · intro s c hc m hm
    simp only [parseExport, hc] at hm
    exact relabel_single hNoYou m hm
  · intro s1 c1 s2 c2 hc
    constructor
    · intro hgt m hm
      simp only [parseExport, hc] at hm
      exact relabel_two_over hNoYou hgt m hm
    · intro hle
      have heq : (parseExport now content chatName).messages =
          finalizeScan (scanLines now (splitCh '\n' content)) := by
        simp only [parseExport, hc]
        exact relabel_two_under hNoYou hle
      exact ⟨heq, fun m hm => hasYou_false_all hNoYou m (heq ▸ hm)⟩
  · intro h3
    have heq : (parseExport now content chatName).messages =
        finalizeScan (scanLines now (splitCh '\n' content)) := by
      simp only [parseExport]
      exact relabel_many h3
    exact ⟨heq, fun m hm => hasYou_false_all hNoYou m (heq ▸ hm)⟩

/-- Witness for C3: on the two-message single-sender transcript no line
was recognized as own during the scan, and the first produced message (a
non-system message of that sender) ends with `isFromMe = true`. -/
theorem C3_retroactive_witness :
    hasYouSender (finalizeScan (scanLines dNow (splitCh '\n' c3content))) = false ∧
    ((parseExport dNow c3content "c".data).messages.headD emptyNameMsg).isFromMe = true :=
  ⟨by decide,
    (C3_retroactive_self_identification dNow c3content "c".data (by decide)).1
      "John".data 2 (by decide)
      ((parseExport dNow c3content "c".data).messages.headD emptyNameMsg)
      (by decide) (by decide) (by decide)⟩

/-- The extraction ledger only grows. -/
theorem extractEntries_ledger_mono (u : List Char) :
    ∀ (entries : List ZipEntry) (st st' : PipeState),
      (extractEntries u entries st = .error st' ∨
        extractEntries u entries st = .ok st') →
      ∀ q ∈ st.ledger, q ∈ st'.ledger := by
  intro entries
  induction entries with
  | nil =>
    intro st st' h q hq
    rcases h with h | h
    · simp [extractEntries] at h
    · simp only [extractEntries] at h
      cases h
      exact hq
  | cons e rest ih =>
    intro st st' h q hq
    match e with
    | .dir name => exact ih st st' (by simpa [extractEntries] using h) q hq
    | .chat name content readOk =>
      by_cases hr : readOk
      · exact ih st st' (by simpa [extractEntries, hr] using h) q hq
      · simp only [extractEntries, hr, if_neg, if_false] at h
        rcases h with h | h
        · cases h; exact hq
        · cases h
    | .media name writeOk =>
      by_cases hw : writeOk
      · have h' := (by simpa [extractEntries, hw] using h :
          extractEntries u rest _ = _ ∨ extractEntries u rest _ = _)
        have := ih _ st' h' q (by simp [hq])
        exact this
      · simp only [extractEntries, hw, if_false] at h
        rcases h with h | h
        · cases h; exact hq
        · cases h

/-- Every path on disk after extraction was either there already, is
recorded in the final ledger, or is the destination of a media entry
whose streamed write failed. -/
theorem extractEntries_disk_char (u : List Char) :
    ∀ (entries : List ZipEntry) (st st' : PipeState),
      (extractEntries u entries st = .error st' ∨
        extractEntries u entries st = .ok st') →
      ∀ p ∈ st'.disk, p ∈ st.disk ∨ p ∈ st'.ledger ∨
        ∃ name, ZipEntry.media name false ∈ entries ∧ p = mediaDest u name := by
  intro entries
  induction entries with
  | nil =>
    intro st st' h p hp
    rcases h with h | h
    · simp [extractEntries] at h
    · simp only [extractEntries] at h
      cases h
      exact Or.inl hp
  | cons e rest ih =>
    intro st st' h p hp
    match e with
    | .dir name =>
      rcases ih st st' (by simpa [extractEntries] using h) p hp with h1 | h1 | ⟨n, hn, hd⟩
      · exact Or.inl h1
      · exact Or.inr (Or.inl h1)
      · exact Or.inr (Or.inr ⟨n, List.mem_cons_of_mem _ hn, hd⟩)
    | .chat name content readOk =>
      by_cases hr : readOk
      · rcases ih st st' (by simpa [extractEntries, hr] using h) p hp with h1 | h1 | ⟨n, hn, hd⟩
        · exact Or.inl h1
        · exact Or.inr (Or.inl h1)
        · exact Or.inr (Or.inr ⟨n, List.mem_cons_of_mem _ hn, hd⟩)
      · simp only [extractEntries, hr, if_false] at h
        rcases h with h | h
        · cases h; exact Or.inl hp
        · cases h
    | .media name writeOk =>
      by_cases hw : writeOk
      · have h' := (by simpa [extractEntries, hw] using h :
          extractEntries u rest
            ⟨diskAdd st.disk (mediaDest u name), st.ledger ++ [mediaDest u name]⟩ = .error st' ∨
          extractEntries u rest
            ⟨diskAdd st.disk (mediaDest u name), st.ledger ++ [mediaDest u name]⟩ = .ok st')
        rcases ih _ st' h' p hp with h1 | h1 | ⟨n, hn, hd⟩
        · by_cases hpd : p = mediaDest u name
          · refine Or.inr (Or.inl ?_)
            refine extractEntries_ledger_mono u rest _ st' h' p ?_
            simp [hpd]
          · refine Or.inl ?_
            simp only [diskAdd] at h1
            by_cases hmem : mediaDest u name ∈ st.disk
            · rw [if_pos hmem] at h1; exact h1
            · rw [if_neg hmem] at h1
              rcases List.mem_append.mp h1 with h2 | h2
              · exact h2
              · simp at h2; exact absurd h2 hpd
        · exact Or.inr (Or.inl h1)
        · exact Or.inr (Or.inr ⟨n, List.mem_cons_of_mem _ hn, hd⟩)
      · simp only [extractEntries, hw, if_false] at h
        rcases h with h | h
        · cases h
          simp only [diskAdd] at hp
          by_cases hmem : mediaDest u name ∈ st.disk
          · rw [if_pos hmem] at hp; exact Or.inl hp
          · rw [if_neg hmem] at hp
            rcases List.mem_append.mp hp with h2 | h2
            · exact Or.inl h2
            · simp at h2
              refine Or.inr (Or.inr ⟨name, ?_, h2⟩)
              simp [show writeOk = false by simpa using hw]
        · cases h

/-- Claim C4 (corrected): after a failed job the source archive is gone
and `cleanupOnFailure` has deleted every ledger-recorded media file; the
only media files that can survive are those whose own streamed write
failed (created by `createWriteStream` but never pushed onto
`extractedMediaPaths`). -/
theorem C4_failure_cleanup (cfg : JobConfig)
    (hf : (runJob cfg).status = JobStatus.failed) :
    cfg.archivePath ∉ (runJob cfg).disk ∧
    ∀ p ∈ (runJob cfg).disk,
      ∃ name, ZipEntry.media name false ∈ cfg.entries ∧
        p = mediaDest cfg.userId name := by
  have hclean : ∀ st : PipeState,
      (extractEntries cfg.userId cfg.entries ⟨[cfg.archivePath], []⟩ = .error st ∨
        extractEntries cfg.userId cfg.entries ⟨[cfg.archivePath], []⟩ = .ok st) →
      cfg.archivePath ∉ cleanupDisk cfg.archivePath st ∧
      ∀ p ∈ cleanupDisk cfg.archivePath st,
        ∃ name, ZipEntry.media name false ∈ cfg.entries ∧
          p = mediaDest cfg.userId name := by
    intro st hst
    constructor
    · intro hmem
      simp only [cleanupDisk, List.mem_filter, decide_eq_true_eq] at hmem
      exact hmem.1.2 rfl
    · intro p hp
      simp only [cleanupDisk, List.mem_filter, decide_eq_true_eq] at hp
      rcases extractEntries_disk_char cfg.userId cfg.entries _ st hst p hp.1.1 with
        h1 | h1 | h1
      · simp only [PipeState.disk] at h1
        rcases List.mem_singleton.mp h1 with h2
        exact absurd h2 hp.1.2
      · exact absurd h1 hp.2
      · exact h1
  simp only [runJob] at hf ⊢
  cases hext : extractEntries cfg.userId cfg.entries ⟨[cfg.archivePath], []⟩ with
  | error st =>
    exact hclean st (Or.inl hext)
  | ok st =>
    by_cases hs : cfg.saveOk = true
    · rw [hext] at hf
      rw [show (match Except.ok st with
          | Except.error (st : PipeState) =>
            JobResult.mk JobStatus.failed (cleanupDisk cfg.archivePath st)
          | Except.ok st =>
            if cfg.saveOk = true then
              JobResult.mk JobStatus.completed
                (st.disk.filter (fun p => p ≠ cfg.archivePath))
            else JobResult.mk JobStatus.failed (cleanupDisk cfg.archivePath st)) =
          if cfg.saveOk = true then
            JobResult.mk JobStatus.completed
              (st.disk.filter (fun p => p ≠ cfg.archivePath))
          else JobResult.mk JobStatus.failed (cleanupDisk cfg.archivePath st) from rfl,
        if_pos hs] at hf
      simp at hf
    · have hs' : cfg.saveOk = false := by simpa using hs
      rw [hs'] at hf ⊢
      exact hclean st (Or.inr hext)

/-- Witness for C4: at the concrete failing job the hypothesis holds and
the source archive is indeed gone. -/
theorem C4_failure_cleanup_witness :
    (runJob c4cfg).status = JobStatus.failed ∧
    c4cfg.archivePath ∉ (runJob c4cfg).disk :=
  ⟨by decide, (C4_failure_cleanup c4cfg (by decide)).1⟩

/-- One correlator iteration changes at most `mediaUrl` (on a truthy
non-link media message) and `mediaName` (when null or empty). -/
theorem processMessage_frame (userId : List Char) (pool : List PoolEntry)
    (byName : List (List Char × PoolEntry)) (m : Msg) :
    FramePreserved m (processMessage userId pool byName m).1 := by
  unfold FramePreserved
  unfold processMessage
  rcases hmt : m.mediaType with _ | t
  · exact ⟨rfl, rfl, rfl, rfl, rfl, hmt, Or.inl rfl, fun _ => rfl⟩
  · by_cases hsk : isSkippedType (some t) = true
    · rw [if_pos hsk]
      exact ⟨rfl, rfl, rfl, rfl, rfl, hmt, Or.inl rfl, fun _ => rfl⟩
    · rw [if_neg hsk]
      simp only [isSkippedType, Bool.or_eq_true, decide_eq_true_eq, not_or] at hsk
      cases hbest : bestMatchFor pool byName m with
      | none => exact ⟨rfl, rfl, rfl, rfl, rfl, hmt, Or.inl rfl, fun _ => rfl⟩
      | some e =>
        refine ⟨rfl, rfl, rfl, rfl, rfl, rfl, Or.inr ?_, ?_⟩
        · exact ⟨by simp, by simp [hsk.1], by simp [hsk.2], _, rfl⟩
        · rintro ⟨hn1, hn2⟩
          rcases hmn : m.mediaName with _ | n
          · exact absurd hmn hn1
          · have hne : ¬ n = [] := fun hc => hn2 (by rw [hmn, hc])
            simp [hmn, hne]

theorem correlateMsgs_frame (userId : List Char) (pool : List PoolEntry) :
    ∀ (msgs : List Msg) (byName : List (List Char × PoolEntry)),
      List.Forall₂ FramePreserved msgs (correlateMsgs userId pool byName msgs) := by
  intro msgs
  induction msgs with
  | nil => intro byName; exact List.Forall₂.nil
  | cons m rest ih =>
    intro byName
    exact List.Forall₂.cons (processMessage_frame userId pool byName m) (ih _)

/-- Claim C10 (corrected): the correlator's frame property.  Each output
message preserves `content`, `sender`, `isFromMe`, `timestamp`,
`isSystemMessage` and `mediaType`; `mediaUrl` is either untouched or set
on a message whose `mediaType` is a truthy non-link kind; and `mediaName`
is preserved whenever it was neither null nor empty (the correction: the
source's `!message.mediaName` truthiness test also overwrites an
empty-string name, not only a null one). -/
theorem C10_correlator_frame (msgs : List Msg) (mediaFiles : List MediaFile)
    (userId : List Char) :
    List.Forall₂ FramePreserved msgs (mapMediaToMessages msgs mediaFiles userId) := by
  unfold mapMediaToMessages
  exact correlateMsgs_frame userId mediaFiles.enum msgs (buildByFilename mediaFiles.enum)

/-- Witness for C10 at a concrete matched message. -/
theorem C10_correlator_frame_witness :
    List.Forall₂ FramePreserved [audioAt 12 0]
      (mapMediaToMessages [audioAt 12 0] [voiceMp3] "u".data) :=
  C10_correlator_frame [audioAt 12 0] [voiceMp3] "u".data

/-- `normDay` is the identity on an in-range day. -/
theorem normDay_of_inRange (fuel : Nat) (y m d : Int) (hf : 0 < fuel)
    (h1 : 1 ≤ d) (h2 : d ≤ daysInMonth y m) : normDay fuel (y, m, d) = (y, m, d) := by
  cases fuel with
  | zero => omega
  | succ n =>
    unfold normDay
    rw [if_neg (by omega), if_neg (by omega)]

/-- `new Date` with in-range components is the identity on them. -/
theorem mkJsDate_inRange (y m0 d h mi s : Int)
    (hm0 : 0 ≤ m0) (hm1 : m0 ≤ 11)
    (hd1 : 1 ≤ d) (hd2 : d ≤ daysInMonth y (m0 + 1))
    (hh : 0 ≤ h) (hh2 : h ≤ 23) (hmi : 0 ≤ mi) (hmi2 : mi ≤ 59)
    (hs : 0 ≤ s) (hs2 : s ≤ 59) :
    mkJsDate y m0 d h mi s = ⟨y, m0 + 1, d, h, mi, s⟩ := by
  have e1 : s.emod 60 = s := Int.emod_eq_of_lt hs (by omega)
  have e2 : s.ediv 60 = 0 := Int.ediv_eq_zero_of_lt hs (by omega)
  have e3 : mi.emod 60 = mi := Int.emod_eq_of_lt hmi (by omega)
  have e4 : mi.ediv 60 = 0 := Int.ediv_eq_zero_of_lt hmi (by omega)
  have e5 : h.emod 24 = h := Int.emod_eq_of_lt hh (by omega)
  have e6 : h.ediv 24 = 0 := Int.ediv_eq_zero_of_lt hh (by omega)
  have e7 : m0.ediv 12 = 0 := Int.ediv_eq_zero_of_lt hm0 (by omega)
  have e8 : m0.emod 12 = m0 := Int.emod_eq_of_lt hm0 (by omega)
  simp only [mkJsDate, e1, e2, add_zero, e3, e4, e5, e6, e7, e8,
    normDay_of_inRange 4000 y (m0 + 1) d (by omega) hd1 hd2]

/-- The 12-to-24-hour conversion never yields a negative hour. -/
theorem convertHour_nonneg (h : Nat) (mer : Option Meridiem) :
    0 ≤ convertHour h mer := by
  unfold convertHour
  cases mer with
  | none =>
    show (0 : Int) ≤ (h : Int)
    omega
  | some m =>
    show (0 : Int) ≤
      if (m = Meridiem.pm ∨ m = Meridiem.meem) ∧ h < 12 then (h : Int) + 12
      else if (m = Meridiem.am ∨ m = Meridiem.sad) ∧ h = 12 then 0 else (h : Int)
    split_ifs <;> omega

/-- Claim C2 (corrected, M/D/Y): whenever the first date/time pattern
matches the preprocessed token with captured fields `f`, the first
numeric field is taken as the MONTH and the second as the DAY of the
resulting instant (for fields forming a valid calendar date and in-range
time components; out-of-range values are calendar-normalized instead). -/
theorem C2_month_day_order (now : JsDate) (s : List Char) (f : TsFields)
    (hm : tsSearch true true (prepTs s) = some f)
    (h1 : 1 ≤ f.month) (h2 : f.month ≤ 12)
    (h3 : 1 ≤ f.day) (h4 : (f.day : Int) ≤ daysInMonth (adjustYear f.year) f.month)
    (h5 : f.minute ≤ 59)
    (h6 : ∀ x, f.second = some x → x ≤ 59)
    (h7 : convertHour f.hour f.meridiem ≤ 23) :
    (parseTimestampWith now s).month = f.month ∧
    (parseTimestampWith now s).day = f.day := by
  have hps : parseTimestampWith now s = buildDate f := by
    simp only [parseTimestampWith, hm]
  rw [hps]
  unfold buildDate
  have hsec1 : 0 ≤ (match f.second with | some s => (s : Int) | none => 0) := by
    cases f.second <;> simp
  have hsec2 : (match f.second with | some s => (s : Int) | none => 0) ≤ 59 := by
    cases hx : f.second with
    | none => simp
    | some x => simpa using h6 x hx
  have hmonth : ((f.month : Int) - 1) + 1 = (f.month : Int) := by omega
  rw [mkJsDate_inRange (adjustYear f.year) ((f.month : Int) - 1) (f.day : Int)
    (convertHour f.hour f.meridiem) (f.minute : Int) _
    (by omega) (by omega) (by omega) (by rw [hmonth]; exact h4)
    (convertHour_nonneg f.hour f.meridiem) h7 (by omega) (by omega) hsec1 hsec2]
  exact ⟨by simp [hmonth], rfl⟩

/-- Witness for C2: the spec's own end-to-end token `12/5/23, 3:41 PM`
lands on December 5 (first field = month 12, second field = day 5). -/
theorem C2_month_day_order_witness :
    (parseTimestampWith dNow "12/5/23, 3:41 PM".data).month = 12 ∧
    (parseTimestampWith dNow "12/5/23, 3:41 PM".data).day = 5 := by
  have h := C2_month_day_order dNow "12/5/23, 3:41 PM".data
    ⟨12, 5, 23, 3, 41, none, some Meridiem.pm⟩ (by decide) (by decide) (by decide)
    (by decide) (by decide) (by decide) (fun x hx => by cases hx) (by decide)
  exact_mod_cast h

/-- One scan step sets the group flag exactly when `stepSetsGroup` says
so (a non-blank user-message line with a non-self sender at a point where
the distinct senders seen, current line included, exceed one). -/
theorem scanStep_isGroup (now : JsDate) (st : ScanState) (l : List Char) :
    (scanStep now st l).isGroup = (st.isGroup || stepSetsGroup st l) := by
  unfold scanStep stepSetsGroup
  by_cases hb : trimStr l = []
  · rw [if_pos hb, if_pos hb]
    simp
  · rw [if_neg hb, if_neg hb]
    cases hmm : msgRegexMatch (normalizeArabicNumerals (normalizeText l)) with
    | some mm =>
      by_cases hy : isYou (trimStr mm.sender) = true
      · simp [hmm, hy]
      · have hy' : isYou (trimStr mm.sender) = false := by simpa using hy
        simp [hmm, hy']
    | none =>
      cases hsm : sysRegexMatch (normalizeArabicNumerals (normalizeText l)) with
      | some sm => simp [hmm, hsm]
      | none =>
        cases hc : st.currentMessage with
        | none => simp [hmm, hsm, hc]
        | some c =>
          by_cases hcs : c.isSystemMessage = true
          · simp [hmm, hsm, hc, hcs]
          · have hcs' : c.isSystemMessage = false := by simpa using hcs
            simp [hmm, hsm, hc, hcs']

/-- Folding the scan over a line list: the group flag is the initial one
or some line triggers it. -/
theorem scanFold_isGroup (now : JsDate) (lines : List (List Char)) :
    ∀ st : ScanState,
      (lines.foldl (scanStep now) st).isGroup =
        (st.isGroup || existsGroupTrigger now st lines) := by
  induction lines with
  | nil => intro st; simp [existsGroupTrigger]
  | cons l rest ih =>
    intro st
    rw [List.foldl_cons, ih (scanStep now st l), scanStep_isGroup,
      show existsGroupTrigger now st (l :: rest) =
        (stepSetsGroup st l || existsGroupTrigger now (scanStep now st l) rest) from rfl,
      Bool.or_assoc]

/-- Claim C5 (corrected): `parseExport` marks a transcript as a group
chat exactly when some line (other than a skipped first-line encryption
notice) parses as a user message whose sender is not a self identifier at
a point where the distinct senders seen so far — self-identified ones and
the current line's included — number at least two.  (In particular a
transcript with senders `You` and one other party is marked a group.) -/
theorem C5_group_detection (now : JsDate) (content chatName : List Char) :
    (parseExport now content chatName).isGroup =
      groupTriggerLines now (splitCh '\n' content) := by
  show (scanLines now (splitCh '\n' content)).isGroup =
    groupTriggerLines now (splitCh '\n' content)
  cases hl : splitCh '\n' content with
  | nil => rfl
  | cons l0 rest =>
    simp only [scanLines, groupTriggerLines]
    by_cases h0 : trimStr l0 ≠ [] ∧ encryptionNoticeTest l0 = true
    · rw [if_pos h0, if_pos h0, scanFold_isGroup]
      simp [initScan]
    · rw [if_neg h0, if_neg h0, scanFold_isGroup, scanStep_isGroup]
      simp [initScan]

theorem startsWithCh_refl (l : List Char) : startsWithCh l l = true := by
  induction l with
  | nil => rfl
  | cons c rest ih => simp [startsWithCh, ih]

theorem startsWithCh_append (p : List Char) :
    ∀ (s t : List Char), startsWithCh p s = true → startsWithCh p (s ++ t) = true := by
  induction p with
  | nil => intro s t _; rfl
  | cons c ps ih =>
    intro s t h
    cases s with
    | nil => simp [startsWithCh] at h
    | cons d ds =>
      simp only [startsWithCh, Bool.and_eq_true] at h
      simp only [List.cons_append, startsWithCh, Bool.and_eq_true]
      exact ⟨h.1, ih ds t h.2⟩

theorem containsCh_append_left (pat : List Char) :
    ∀ (s t : List Char), containsCh pat s = true → containsCh pat (s ++ t) = true := by
  intro s
  induction s with
  | nil =>
    intro t h
    cases pat with
    | nil =>
      cases t with
      | nil => rfl
      | cons c cs => simp [containsCh, startsWithCh]
    | cons p ps => simp [containsCh, startsWithCh] at h
  | cons c rest ih =>
    intro t h
    simp only [containsCh, Bool.or_eq_true] at h
    simp only [List.cons_append, containsCh, Bool.or_eq_true]
    rcases h with h | h
    · exact Or.inl (startsWithCh_append pat (c :: rest) t h)
    · exact Or.inr (ih t h)

theorem containsCh_append_right (pat : List Char) :
    ∀ (s t : List Char), containsCh pat t = true → containsCh pat (s ++ t) = true := by
  intro s
  induction s with
  | nil => intro t h; simpa using h
  | cons c rest ih =>
    intro t h
    simp only [List.cons_append, containsCh, Bool.or_eq_true]
    exact Or.inr (ih t h)

theorem containsCh_self (l : List Char) : containsCh l l = true := by
  cases l with
  | nil => rfl
  | cons c rest => simp [containsCh, startsWithCh_refl]

/-- The media reference classifier never touches `content`. -/
theorem parseMediaAttachment_content (m : Msg) :
    (parseMediaAttachment m).content = m.content := rfl

/-- The media reference classifier never touches `isSystemMessage`. -/
theorem parseMediaAttachment_isSystemMessage (m : Msg) :
    (parseMediaAttachment m).isSystemMessage = m.isSystemMessage := rfl

/-- One scan step preserves text already attached to the state. -/
theorem holdsIn_scanStep (now : JsDate) (st : ScanState) (l pat : List Char)
    (h : holdsIn pat st) : holdsIn pat (scanStep now st l) := by
  have push :
      ∃ m ∈ st.messages ++ (match st.currentMessage with | some c => [c] | none => []),
        containsCh pat m.content = true := by
    rcases h with ⟨m, hm, hc⟩ | ⟨c, hc, hcont⟩
    · exact ⟨m, List.mem_append_left _ hm, hc⟩
    · refine ⟨c, ?_, hcont⟩
      rw [hc]
      exact List.mem_append_right _ (by simp)
  unfold scanStep
  by_cases hb : trimStr l = []
  · rwa [if_pos hb]
  · rw [if_neg hb]
    cases hmm : msgRegexMatch (normalizeArabicNumerals (normalizeText l)) with
    | some mm =>
      simp only [hmm]
      by_cases hy : isYou (trimStr mm.sender) = true
      · rw [if_pos hy]
        exact Or.inl push
      · rw [if_neg hy]
        exact Or.inl push
    | none =>
      cases hsm : sysRegexMatch (normalizeArabicNumerals (normalizeText l)) with
      | some sm =>
        simp only [hmm, hsm]
        exact Or.inl push
      | none =>
        simp only [hmm, hsm]
        cases hc2 : st.currentMessage with
        | none => exact h
        | some c =>
          dsimp only
          by_cases hcs : c.isSystemMessage = true
          · rw [if_pos hcs]
            exact h
          · rw [if_neg hcs]
            rcases h with ⟨m, hm, hcont⟩ | ⟨c', hc', hcont⟩
            · exact Or.inl ⟨m, hm, hcont⟩
            · rw [hc2] at hc'
              have hcc : c = c' := Option.some.inj hc'
              subst hcc
              refine Or.inr ⟨_, rfl, ?_⟩
              rw [parseMediaAttachment_content]
              exact containsCh_append_left pat c.content _ hcont

theorem holdsIn_fold (now : JsDate) (lines : List (List Char)) :
    ∀ (st : ScanState) (pat : List Char), holdsIn pat st →
      holdsIn pat (lines.foldl (scanStep now) st) := by
  induction lines with
  | nil => intro st pat h; exact h
  | cons l rest ih =>
    intro st pat h
    exact ih (scanStep now st l) pat (holdsIn_scanStep now st l pat h)

theorem holdsIn_finalize (st : ScanState) (pat : List Char) (h : holdsIn pat st) :
    ∃ m ∈ finalizeScan st, containsCh pat m.content = true := by
  unfold finalizeScan
  rcases h with ⟨m, hm, hc⟩ | ⟨c, hc, hcont⟩
  · exact ⟨m, List.mem_append_left _ hm, hc⟩
  · refine ⟨c, ?_, hcont⟩
    rw [hc]
    exact List.mem_append_right _ (by simp)

/-- A line matching neither grammar is a no-op when no message is open or
the open message is a system message. -/
theorem scanStep_drop (now : JsDate) (st : ScanState) (l : List Char)
    (hmsg : msgRegexMatch (normalizeArabicNumerals (normalizeText l)) = none)
    (hsys : sysRegexMatch (normalizeArabicNumerals (normalizeText l)) = none)
    (hcur : st.currentMessage = none ∨
      ∃ c, st.currentMessage = some c ∧ c.isSystemMessage = true) :
    scanStep now st l = st := by
  unfold scanStep
  by_cases hb : trimStr l = []
  · rw [if_pos hb]
  · rw [if_neg hb]
    simp only [hmsg, hsys]
    rcases hcur with hcur | ⟨c, hcur, hcs⟩
    · rw [hcur]
    · rw [hcur]
      dsimp only
      rw [if_pos hcs]

/-- Claim C7 (corrected): disposition of a line matching neither grammar.
With no open message, or with an open system message, the line leaves the
parse state unchanged — it is dropped and ends up attached to no produced
message.  With an open non-system message it is appended to that
message's content and survives into some produced message of the final
output. -/
theorem C7_line_disposition (now : JsDate) (st : ScanState) (l : List Char)
    (post : List (List Char))
    (hmsg : msgRegexMatch (normalizeArabicNumerals (normalizeText l)) = none)
    (hsys : sysRegexMatch (normalizeArabicNumerals (normalizeText l)) = none) :
    ((st.currentMessage = none ∨
        ∃ c, st.currentMessage = some c ∧ c.isSystemMessage = true) →
      (l :: post).foldl (scanStep now) st = post.foldl (scanStep now) st) ∧
    (∀ c, st.currentMessage = some c → c.isSystemMessage = false → trimStr l ≠ [] →
      ∃ m ∈ finalizeScan ((l :: post).foldl (scanStep now) st),
        containsCh (normalizeArabicNumerals (normalizeText l)) m.content = true) := by
  constructor
  · intro hcur
    rw [List.foldl_cons, scanStep_drop now st l hmsg hsys hcur]
  · intro c hc hcs hnb
    rw [List.foldl_cons]
    refine holdsIn_finalize _ _ (holdsIn_fold now post _ _ ?_)
    unfold scanStep
    rw [if_neg hnb]
    simp only [hmsg, hsys, hc]
    rw [if_neg (by simp [hcs])]
    refine Or.inr ⟨_, rfl, ?_⟩
    rw [parseMediaAttachment_content]
    refine containsCh_append_right _ _ _ ?_
    rw [show containsCh (normalizeArabicNumerals (normalizeText l))
        ('\n' :: normalizeArabicNumerals (normalizeText l)) =
      (startsWithCh (normalizeArabicNumerals (normalizeText l))
          ('\n' :: normalizeArabicNumerals (normalizeText l)) ||
        containsCh (normalizeArabicNumerals (normalizeText l))
          (normalizeArabicNumerals (normalizeText l))) from rfl]
    rw [containsCh_self]
    simp

/-- Witness for C7: the non-matching line `more` following an open
non-system message ends up inside a produced message. -/
theorem C7_line_disposition_witness :
    ∃ m ∈ finalizeScan ((["more".data] : List (List Char)).foldl (scanStep dNow) c7state),
      containsCh (normalizeArabicNumerals (normalizeText "more".data)) m.content = true :=
  (C7_line_disposition dNow c7state "more".data [] (by decide) (by decide)).2
    c7openMsg (by decide) (by decide) (by decide)

/-- An eligible fuzzy candidate has a strictly positive score. -/
theorem fuzzyEligible_score {byName : List (List Char × PoolEntry)} {msg : Msg}
    {e : PoolEntry} (he : fuzzyEligible byName msg e = true) :
    0 < 10000000 - tdOf msg e := by
  unfold fuzzyEligible at he
  simp only [Bool.and_eq_true, decide_eq_true_eq] at he
  exact he.2

/-- One iteration of the fuzzy-scoring loop, characterized: an eligible
candidate beating the incumbent score replaces it, everything else leaves
the accumulator unchanged (given the incumbent score is nonnegative, as
it always is starting from `bestScore = 0`). -/
theorem fuzzyStep_char (byName : List (List Char × PoolEntry)) (msg : Msg)
    (acc : Int × Option PoolEntry) (e : PoolEntry) (hacc : 0 ≤ acc.1) :
    fuzzyStep byName msg acc e =
      if (fuzzyEligible byName msg e && decide (acc.1 < 10000000 - tdOf msg e)) = true then
        (10000000 - tdOf msg e, some e)
      else acc := by
  unfold fuzzyStep fuzzyEligible
  by_cases hns : notShadowed byName e = false
  · rw [if_pos hns, if_neg]
    simp only [Bool.and_eq_true]
    intro hcond
    rw [hns] at hcond
    exact Bool.false_ne_true hcond.1.1.1.1
  · rw [if_neg hns]
    have hns' : notShadowed byName e = true := by
      cases h : notShadowed byName e
      · exact absurd h hns
      · rfl
    by_cases htw : (mediaTypeMatches msg.mediaType e.2.type &&
        decide (tdOf msg e < 86400000)) = true
    · rw [if_pos htw]
      simp only [Bool.and_eq_true, decide_eq_true_eq] at htw
      by_cases hsc : 10000000 - tdOf msg e > acc.1
      · rw [if_pos hsc, if_pos]
        simp only [Bool.and_eq_true, decide_eq_true_eq]
        exact ⟨⟨⟨⟨hns', htw.1⟩, htw.2⟩, by omega⟩, by omega⟩
      · rw [if_neg hsc, if_neg]
        simp only [Bool.and_eq_true, decide_eq_true_eq]
        intro hcond
        exact absurd hcond.2 hsc
    · rw [if_neg htw]
      rw [if_neg]
      simp only [Bool.and_eq_true, decide_eq_true_eq] at htw ⊢
      intro hcond
      exact htw ⟨hcond.1.1.1.2, hcond.1.1.2⟩

/-- The fuzzy-scoring loop computes the first minimizer of the time
difference over the eligible candidates, threaded from any accumulator
consistent with an already-chosen eligible incumbent. -/
theorem fuzzyFold_argmin (byName : List (List Char × PoolEntry)) (msg : Msg) :
    ∀ (cands : List PoolEntry) (acc : Int × Option PoolEntry),
      ((acc.2 = none ∧ acc.1 = 0) ∨
        (∃ b, acc.2 = some b ∧ fuzzyEligible byName msg b = true ∧
          acc.1 = 10000000 - tdOf msg b)) →
      (cands.foldl (fuzzyStep byName msg) acc).2 =
        (cands.filter (fuzzyEligible byName msg)).foldl
          (fun acc e =>
            match acc with
            | none => some e
            | some b => if tdOf msg e < tdOf msg b then some e else acc)
          acc.2 := by
  intro cands
  induction cands with
  | nil => intro acc _; rfl
  | cons e rest ih =>
    intro acc hinv
    have hacc : 0 ≤ acc.1 := by
      rcases hinv with ⟨_, h0⟩ | ⟨b, _, heb, h1⟩
      · omega
      · have := fuzzyEligible_score heb
        omega
    rw [List.foldl_cons, fuzzyStep_char byName msg acc e hacc]
    by_cases he : fuzzyEligible byName msg e = true
    · by_cases hlt : acc.1 < 10000000 - tdOf msg e
      · rw [if_pos (by simp [he, hlt])]
        rw [List.filter_cons_of_pos he, List.foldl_cons]
        have hstep : (match acc.2 with
            | none => some e
            | some b => if tdOf msg e < tdOf msg b then some e else acc.2) = some e := by
          rcases hinv with ⟨h2, _⟩ | ⟨b, h2, _, h1⟩
          · rw [h2]
          · rw [h2]
            show (if tdOf msg e < tdOf msg b then some e else some b) = some e
            rw [if_pos (by omega)]
        rw [hstep]
        exact ih (10000000 - tdOf msg e, some e) (Or.inr ⟨e, rfl, he, rfl⟩)
      · rw [if_neg (by simp [hlt])]
        rw [List.filter_cons_of_pos he, List.foldl_cons]
        have hstep : (match acc.2 with
            | none => some e
            | some b => if tdOf msg e < tdOf msg b then some e else acc.2) = acc.2 := by
          rcases hinv with ⟨h2, h0⟩ | ⟨b, h2, _, h1⟩
          · exfalso
            have := fuzzyEligible_score he
            omega
          · rw [h2]
            show (if tdOf msg e < tdOf msg b then some e else some b) = some b
            rw [if_neg (by omega)]
        rw [hstep]
        exact ih acc hinv
    · rw [if_neg (by simp [he])]
      rw [List.filter_cons_of_neg (by simp [he])]
      exact ih acc hinv

/-- Claim C6 (corrected): the fuzzy-match choice.  For a message with a
truthy non-link media kind and no exact filename hit, the candidates are
the same-calendar-day files whose filename-index entry is absent (a
consumed file stays eligible — see C1) or maps to the file itself, whose
extension bucket matches, and whose time difference is under both 24
hours and 10,000,000 ms (the score `10000000 - Δt` must beat the initial
best score 0, so the effective window is about 2h47m, not 24h); among
those the first one attaining the smallest time difference is assigned as
`mediaUrl`. -/
theorem C6_fuzzy_choice (userId : List Char) (pool : List PoolEntry)
    (byName : List (List Char × PoolEntry)) (msg : Msg) (t : List Char)
    (hmt : msg.mediaType = some t) (ht1 : t ≠ []) (ht2 : t ≠ "link".data)
    (hex : exactFor byName msg = none) :
    bestMatchFor pool byName msg =
      argMinFirstTD msg
        ((pool.filter (fun e => dateKeyOf e.2.timestamp = dateKeyOf msg.timestamp)).filter
          (fuzzyEligible byName msg)) ∧
    (processMessage userId pool byName msg).1.mediaUrl =
      (match argMinFirstTD msg
          ((pool.filter (fun e => dateKeyOf e.2.timestamp = dateKeyOf msg.timestamp)).filter
            (fuzzyEligible byName msg)) with
       | some e => some ("/media/".data ++ userId ++ "/".data ++ e.2.filename)
       | none => msg.mediaUrl) := by
  have h1 : bestMatchFor pool byName msg =
      argMinFirstTD msg
        ((pool.filter (fun e => dateKeyOf e.2.timestamp = dateKeyOf msg.timestamp)).filter
          (fuzzyEligible byName msg)) := by
    unfold bestMatchFor
    rw [hex]
    exact fuzzyFold_argmin byName msg _ (0, none) (Or.inl ⟨rfl, rfl⟩)
  refine ⟨h1, ?_⟩
  unfold processMessage
  rw [hmt, if_neg (by simp [isSkippedType, ht1, ht2]), h1]
  cases argMinFirstTD msg
      ((pool.filter (fun e => dateKeyOf e.2.timestamp = dateKeyOf msg.timestamp)).filter
        (fuzzyEligible byName msg)) with
  | none => rfl
  | some e => rfl

/-- Witness for C6: the sole same-day `.mp3` candidate at a 2-hour gap is
assigned to the audio message. -/
theorem C6_fuzzy_choice_witness :
    (processMessage "u".data ([voiceMp3].enum) (buildByFilename [voiceMp3].enum)
        (audioAt 12 0)).1.mediaUrl = some "/media/u/voice.mp3".data := by
  have h := (C6_fuzzy_choice "u".data ([voiceMp3].enum) (buildByFilename [voiceMp3].enum)
    (audioAt 12 0) "audio".data (by decide) (by decide) (by decide) (by decide)).2
  rw [h]
  decide

end WhatsApp
